import Mathlib

set_option autoImplicit false

deriving instance DecidableEq for Except

namespace Pkglink

/-! ## String helpers (Python semantics)

Shallow embedding of the string primitives used by `src/pkglink/parsing.py`
and `src/pkglink/pkglinkx.py`.  Strings are handled through their character
lists so that the regular expressions of the source can be translated into
structurally recursive matchers.
-/

/-- Python `str.strip()` on a character list: drop leading and trailing
whitespace. -/
def stripL (l : List Char) : List Char :=
  ((l.dropWhile Char.isWhitespace).reverse.dropWhile Char.isWhitespace).reverse

/-- Python `str.strip()` on a `String`. -/
def pyStrip (s : String) : String := ⟨stripL s.toList⟩

/-- Python truthiness of an `Optional[str]`: `None` and `''` are falsy. -/
def pyTruthy : Option String → Bool
  | none => false
  | some s => !s.isEmpty

/-- Split a character list at the first occurrence of `c`, returning the
parts before and after it.  `none` when `c` does not occur.  This is the
deterministic decomposition performed by the greedy regex groups
`([^c]+)` / `(.+)` used in `parse_source`. -/
def splitFirst (c : Char) : List Char → Option (List Char × List Char)
  | [] => none
  | x :: xs =>
    if x = c then some ([], xs)
    else
      match splitFirst c xs with
      | none => none
      | some (a, b) => some (x :: a, b)

/-! ## Data model (`src/pkglink/models.py`) -/

/-- `source_type: Literal['github', 'package', 'local']`. -/
inductive SourceType
  | github
  | package
  | local
deriving DecidableEq, Repr

/-- `SourceSpec` from `src/pkglink/models.py`. -/
structure SourceSpec where
  source_type : SourceType
  name : String
  version : Option String := none
  org : Option String := none
deriving DecidableEq, Repr

/-- Constructing a `SourceSpec` runs the pydantic `validate_name` validator:
the name is stripped and must be non-empty, otherwise validation fails. -/
def mkSourceSpec (t : SourceType) (name : String) (version : Option String)
    (org : Option String) : Except String SourceSpec :=
  if pyStrip name = "" then .error "Source name cannot be empty"
  else .ok ⟨t, pyStrip name, version, org⟩

/-! ## Source parsing (`src/pkglink/parsing.py`) -/

/-- The literal prefix `github:` checked by `parse_source`. -/
def ghMarker : List Char := ['g', 'i', 't', 'h', 'u', 'b', ':']

/-- Group extraction of the regex `^github:([^/]+)/([^@/]+)(?:@(.+))?$`
applied to the text after `github:`.  Since `[^/]+` cannot cross a slash
and `[^@/]+` cannot cross an `@`, the greedy match is exactly: org = text
before the first `/`, name = text from there to the first `@` (must be
slash-free and non-empty), version = remainder after that `@` (must be
non-empty when present). -/
def githubTail (org tail : List Char) :
    Option (List Char × List Char × Option (List Char)) :=
  if org = [] then none
  else
    match splitFirst '@' tail with
    | none =>
      if tail = [] || tail.contains '/' then none
      else some (org, tail, none)
    | some (nm, ver) =>
      if nm = [] || nm.contains '/' || ver = [] then none
      else some (org, nm, some ver)

def githubGroups (rest : List Char) :
    Option (List Char × List Char × Option (List Char)) :=
  match splitFirst '/' rest with
  | none => none
  | some (org, tail) => githubTail org tail

/-- `source.startswith(('./', '/', '~'))` in `parse_source`. -/
def localMarker : List Char → Bool
  | '.' :: '/' :: _ => true
  | '/' :: _ => true
  | '~' :: _ => true
  | _ => false

/-- `Path(source).name`: final path component.  POSIX semantics: empty and
`.` components are dropped.  (`~`-expansion depends on the environment and
is not modelled; no claim exercises the local branch.) -/
def posixPathName (s : String) : String :=
  ((s.splitOn "/").filter (fun p => p ≠ "" && p ≠ ".")).getLastD ""

/-- The `ValueError` message raised by `parse_source`. -/
def invalidSourceMsg (source : String) : String :=
  "Invalid source format: " ++ source

/-- `parse_source` from `src/pkglink/parsing.py`.  The three branches mirror
the source: `github:` strings, local paths, then the package regex
`^([^@]+)(?:@(.+))?$` as the default. -/
def parse_source (source : String) : Except String SourceSpec :=
  if ghMarker.isPrefixOf source.toList then
    match githubGroups (source.toList.drop 7) with
    | some (org, repo, ver) =>
      if stripL org = [] || stripL repo = [] then .error (invalidSourceMsg source)
      else
        mkSourceSpec .github ⟨repo⟩ (ver.map fun v => ⟨stripL v⟩)
          (some ⟨stripL org⟩)
    | none => .error (invalidSourceMsg source)
  else if localMarker source.toList then
    mkSourceSpec .local (posixPathName source) none none
  else
    match splitFirst '@' source.toList with
    | none =>
      if source.toList = [] then .error (invalidSourceMsg source)
      else mkSourceSpec .package ⟨source.toList⟩ none none
    | some (nm, ver) =>
      if nm = [] || ver = [] then .error (invalidSourceMsg source)
      else mkSourceSpec .package ⟨nm⟩ (some ⟨ver⟩) none

/-- The characters of `git+https://github.com/` (the fixed prefix of the
normalized github install spec). -/
def gitBase : List Char :=
  ['g', 'i', 't', '+', 'h', 't', 't', 'p', 's', ':', '/', '/',
    'g', 'i', 't', 'h', 'u', 'b', '.', 'c', 'o', 'm', '/']

/-- The characters of `.git`. -/
def gitSfx : List Char := ['.', 'g', 'i', 't']

/-- `build_uv_install_spec` from `src/pkglink/parsing.py`.  (An `org` of
`None` would be interpolated by the f-string as the text `None`.) -/
def build_uv_install_spec (spec : SourceSpec) : Except String String :=
  match spec.source_type with
  | .github =>
    let orgStr := match spec.org with | some o => o | none => "None"
    let baseUrl := "git+https://github.com/" ++ orgStr ++ "/" ++ spec.name ++ ".git"
    .ok (if pyTruthy spec.version then baseUrl ++ "@" ++ (spec.version.getD "") else baseUrl)
  | .package =>
    .ok (if pyTruthy spec.version then spec.name ++ "==" ++ (spec.version.getD "") else spec.name)
  | .local => .error ("Cannot build UV spec for local source: " ++ spec.name)

/-! ## Mutability classification (`src/pkglink/pkglinkx.py`) -/

/-- `re.match(r'^[a-f0-9]{40}$', v)`: exactly forty lowercase-hex
characters. -/
def isCommitHashMatch (v : List Char) : Bool :=
  v.length = 40 && v.all fun c => ('a' ≤ c && c ≤ 'f') || ('0' ≤ c && c ≤ '9')

/-- Consume `\d+`: at least one digit, return the rest of the input. -/
def eatDigits1 (l : List Char) : Option (List Char) :=
  if (l.takeWhile Char.isDigit) = [] then none
  else some (l.dropWhile Char.isDigit)

/-- After the second dot: `\d+` must follow. -/
def semverDot2 : List Char → Bool
  | c2 :: l4 => if c2 = '.' then (eatDigits1 l4).isSome else false
  | [] => false

/-- After the first dot: `\d+\.\d+` must follow. -/
def semverNum2 (l2 : List Char) : Bool :=
  match eatDigits1 l2 with
  | none => false
  | some l3 => semverDot2 l3

/-- Between the first number and the rest: `\.\d+\.\d+`. -/
def semverDot1 : List Char → Bool
  | c1 :: l2 => if c1 = '.' then semverNum2 l2 else false
  | [] => false

/-- The `\d+\.\d+\.\d+` part of the tag regex, as a prefix match.  Digit
runs are greedy and a digit is never a dot, so no backtracking is
possible. -/
def semverCore (l : List Char) : Bool :=
  match eatDigits1 l with
  | none => false
  | some l1 => semverDot1 l1

/-- `re.match(r'^v?\d+\.\d+\.\d+', v)`: an optional leading `v`, then
three dot-separated digit runs as a prefix of the input. -/
def isSemverTagMatch (v : List Char) : Bool :=
  match v with
  | c :: rest => if c = 'v' then semverCore rest else semverCore v
  | [] => semverCore v

/-- `_is_immutable_reference` from `src/pkglink/pkglinkx.py`. -/
def isImmutableReference (spec : SourceSpec) : Bool :=
  if spec.source_type = .package && pyTruthy spec.version then true
  else if spec.source_type = .github && pyTruthy spec.version then
    let v := (spec.version.getD "").toList
    isCommitHashMatch v || isSemverTagMatch v
  else false

/-! ### Claim-side (spec wording) mutability predicates

These declarative predicates follow the wording of the specification and
of claim C6; they are compared against `isImmutableReference`, which was
translated from the source. -/

/-- The sixteen lowercase hexadecimal characters. -/
def hexLowerChars : List Char :=
  ['a', 'b', 'c', 'd', 'e', 'f', '0', '1', '2', '3', '4', '5', '6', '7', '8', '9']

/-- Claim wording: the version is a 40-character lowercase-hex commit
hash. -/
def commitHashWorded (v : String) : Prop :=
  v.toList.length = 40 ∧ ∀ c ∈ v.toList, c ∈ hexLowerChars

/-- Claim wording: the version is a semantic-version-like tag — an
optional leading `v`, then three non-empty digit runs separated by dots,
followed by anything. -/
def semverLikeWorded (v : String) : Prop :=
  ∃ (pre a b c rest : List Char),
    (pre = [] ∨ pre = ['v']) ∧
    a ≠ [] ∧ b ≠ [] ∧ c ≠ [] ∧
    (∀ x ∈ a, x.isDigit = true) ∧ (∀ x ∈ b, x.isDigit = true) ∧
    (∀ x ∈ c, x.isDigit = true) ∧
    v.toList = pre ++ (a ++ '.' :: (b ++ '.' :: (c ++ rest)))

/-- Claim wording of the mutability rule: immutable exactly when the spec
is a package with an explicit version, or a github spec whose version is a
commit hash or a semantic-version-like tag. -/
def immutableWorded (spec : SourceSpec) : Prop :=
  (spec.source_type = .package ∧ ∃ v, spec.version = some v ∧ v ≠ "")
  ∨ (spec.source_type = .github ∧
      ∃ v, spec.version = some v ∧ v ≠ "" ∧
        (commitHashWorded v ∨ semverLikeWorded v))

/-! ## Package-root locator (`src/pkglink/installation.py`)

The locator only inspects the directory listing of `install_dir`
(`install_dir.iterdir()` in listing order) together with, for each entry,
whether it is a directory, whether it contains an `__init__.py`, and
whether it contains a `resources` entry.  A `DirItem` captures exactly
that view of one listing entry. -/

structure DirItem where
  name : String
  isDir : Bool
  hasInitPy : Bool
  hasResources : Bool
deriving DecidableEq, Repr

/-- `find_exact_match`: `install_dir / expected_name` exists and is a
directory (in listing terms: the first entry with exactly that name that
is a directory). -/
def find_exact_match (items : List DirItem) (expected : String) : Option DirItem :=
  items.find? fun item => item.isDir && item.name = expected

/-- `find_python_package`: first directory containing `__init__.py`. -/
def find_python_package (items : List DirItem) : Option DirItem :=
  items.find? fun item => item.isDir && item.hasInitPy

/-- `find_with_resources`: first directory containing a `resources`
entry. -/
def find_with_resources (items : List DirItem) : Option DirItem :=
  items.find? fun item => item.isDir && item.hasResources

/-- `find_by_prefix` in `installation.py`: first directory whose name
starts with the expected name. -/
def find_by_startsWith (items : List DirItem) (expected : String) : Option DirItem :=
  items.find? fun item => item.isDir && item.name.startsWith expected

/-- `find_by_suffix` in `installation.py`: first directory whose name ends
with the expected name. -/
def find_by_endsWith (items : List DirItem) (expected : String) : Option DirItem :=
  items.find? fun item => item.isDir && item.name.endsWith expected

/-- Length of the longest common prefix of two character lists. -/
def commonPrefixLen : List Char → List Char → Nat
  | a :: as, b :: bs => if a = b then commonPrefixLen as bs + 1 else 0
  | _, _ => 0

/-- `SequenceMatcher.find_longest_match` over the whole sequences: the
longest block `(i, j, k)` with `a[i:i+k] = b[j:j+k]`, ties broken toward
the smallest `i`, then the smallest `j` (brute-force formulation; the
autojunk heuristic of `difflib` is inert on strings shorter than 200
characters, which directory names are). -/
def longestMatchBlock (a b : List Char) : Nat × Nat × Nat :=
  (List.range a.length).foldl
    (fun acc i =>
      (List.range b.length).foldl
        (fun acc2 j =>
          let k := commonPrefixLen (a.drop i) (b.drop j)
          if k > acc2.2.2 then (i, j, k) else acc2)
        acc)
    (0, 0, 0)

/-- Total number of matched characters (Ratcliff–Obershelp): recursively
take the longest matching block and recurse on both sides.  `fuel` bounds
the recursion depth; `a.length + b.length` always suffices. -/
def matchTotal : Nat → List Char → List Char → Nat
  | 0, _, _ => 0
  | Nat.succ fuel, a, b =>
    let m := longestMatchBlock a b
    if m.2.2 = 0 then 0
    else
      matchTotal fuel (a.take m.1) (b.take m.2.1) + m.2.2 +
        matchTotal fuel (a.drop (m.1 + m.2.2)) (b.drop (m.2.1 + m.2.2))

/-- `SequenceMatcher(None, a, b).ratio()`: `2*M / (len(a)+len(b))`, and
`1.0` for two empty sequences (exact rational arithmetic stands in for the
floating-point division of the source). -/
def similarityScore (a b : List Char) : ℚ :=
  if a.length + b.length = 0 then 1
  else (2 * (matchTotal (a.length + b.length) a b) : ℚ) / ((a.length : ℚ) + (b.length : ℚ))

/-- Python `str.lower()` (ASCII behaviour). -/
def lowerL (l : List Char) : List Char := l.map Char.toLower

/-- `find_by_similarity`: best similarity match over non-hidden,
non-`.dist-info` directories, accepted only above the `0.6` threshold;
the running best is replaced only on strictly greater ratio, so the first
of equally-rated candidates wins. -/
def find_by_similarity (items : List DirItem) (expected : String) : Option DirItem :=
  (items.foldl
    (fun best item =>
      if item.isDir && !(item.name.startsWith ".") && !(item.name.endsWith ".dist-info") then
        let r := similarityScore (lowerL expected.toList) (lowerL item.name.toList)
        if r > best.2 then (some item, r) else best
      else best)
    ((none : Option DirItem), (3 : ℚ) / 5)).1

/-- `find_first_directory`: first non-hidden, non-`.dist-info`
directory. -/
def find_first_directory (items : List DirItem) : Option DirItem :=
  items.find? fun item =>
    item.isDir && !(item.name.startsWith ".") && !(item.name.endsWith ".dist-info")

/-- The `RuntimeError` raised when every strategy fails, naming the
expected package and the install directory. -/
inductive LocateError
  | packageRootNotFound (expected : String) (installDir : String)
deriving DecidableEq, Repr

/-- The ordered strategy chain as claimed: first success of the seven
strategies in their fixed order (claim-side formulation, compared with
`find_package_root` below). -/
def locatorChain (items : List DirItem) (expected : String) : Option DirItem :=
  (find_exact_match items expected).orElse fun _ =>
    (find_python_package items).orElse fun _ =>
      (find_with_resources items).orElse fun _ =>
        (find_by_startsWith items expected).orElse fun _ =>
          (find_by_endsWith items expected).orElse fun _ =>
            (find_by_similarity items expected).orElse fun _ =>
              find_first_directory items

/-- `find_package_root`: the strategy loop of `installation.py`, unrolled
in the order of its `strategies` list: exact match, Python package,
resources directory, prefix match, suffix match, similarity match, first
directory. -/
def find_package_root (installDir : String) (items : List DirItem)
    (expected : String) : Except LocateError DirItem :=
  match find_exact_match items expected with
  | some r => .ok r
  | none =>
  match find_python_package items with
  | some r => .ok r
  | none =>
  match find_with_resources items with
  | some r => .ok r
  | none =>
  match find_by_startsWith items expected with
  | some r => .ok r
  | none =>
  match find_by_endsWith items expected with
  | some r => .ok r
  | none =>
  match find_by_similarity items expected with
  | some r => .ok r
  | none =>
  match find_first_directory items with
  | some r => .ok r
  | none => .error (.packageRootNotFound expected installDir)

/-! ## Filesystem model (for `src/pkglink/symlinks.py` and `src/pkglink/main.py`)

A filesystem is a finite association list from absolute paths (component
lists, the working directory being the empty path) to nodes.  A node is a
regular file, a directory, or a symbolic link carrying its destination
path.  Resolution follows symlink chains at the looked-up path itself
(fuelled, so that link cycles behave like `ELOOP`: the path reports as
non-existing, as `Path.exists` does). -/

abbrev PathC := List String

inductive FNode
  | file
  | dir
  | symlink (dest : PathC)
deriving DecidableEq, Repr

structure FS where
  entries : List (PathC × FNode)
deriving DecidableEq, Repr

/-- `lstat`-style lookup: the node stored at exactly this path. -/
def FS.lookup (fs : FS) (p : PathC) : Option FNode :=
  (fs.entries.find? fun e => e.1 = p).map (·.2)

/-- Follow symlink chains starting at `p`, with fuel. -/
def FS.resolveNode (fs : FS) : Nat → PathC → Option FNode
  | 0, _ => none
  | Nat.succ fuel, p =>
    match fs.lookup p with
    | some (.symlink d) => fs.resolveNode fuel d
    | other => other

/-- Enough fuel to follow any cycle-free chain in `fs`. -/
def FS.fuel (fs : FS) : Nat := fs.entries.length + 1

/-- Python `Path.exists()`: follows symlinks; broken links and cycles
report `False`. -/
def FS.existsPath (fs : FS) (p : PathC) : Bool :=
  (fs.resolveNode fs.fuel p).isSome

/-- Python `Path.is_symlink()`: `lstat`, does not follow. -/
def FS.isSymlink (fs : FS) (p : PathC) : Bool :=
  match fs.lookup p with
  | some (.symlink _) => true
  | _ => false

/-- Python `Path.is_dir()`: follows symlinks. -/
def FS.isDirPath (fs : FS) (p : PathC) : Bool :=
  match fs.resolveNode fs.fuel p with
  | some .dir => true
  | _ => false

/-- Python `Path.is_file()`: follows symlinks. -/
def FS.isFilePath (fs : FS) (p : PathC) : Bool :=
  match fs.resolveNode fs.fuel p with
  | some .file => true
  | _ => false

/-- Remove exactly one directory entry (`Path.unlink`). -/
def FS.erase (fs : FS) (p : PathC) : FS :=
  ⟨fs.entries.filter fun e => ¬(e.1 = p)⟩

/-- Remove a path and everything below it (`shutil.rmtree`). -/
def FS.eraseTree (fs : FS) (p : PathC) : FS :=
  ⟨fs.entries.filter fun e => ¬(p.isPrefixOf e.1)⟩

/-- Create a fresh entry at `p` (callers guard against existing ones). -/
def FS.insert (fs : FS) (p : PathC) (n : FNode) : FS :=
  ⟨(p, n) :: fs.entries.filter fun e => ¬(e.1 = p)⟩

/-- `shutil.copytree(source, target)`: every entry at or below `source`
is duplicated at the corresponding path below `target`. -/
def FS.copytree (fs : FS) (source target : PathC) : FS :=
  ⟨(fs.entries.filterMap fun e =>
      if source.isPrefixOf e.1 then some (target ++ e.1.drop source.length, e.2)
      else none)
    ++ fs.entries⟩

/-! ## Symlink reconciler (`src/pkglink/symlinks.py`) -/

/-- `remove_target` from `src/pkglink/symlinks.py`: unlink a symlink,
recursively delete a real directory, unlink a file, silently do nothing
otherwise.  The source has no name-based safety guard and no
`expected_name` parameter (the test-suite expects both). -/
def remove_target (fs : FS) (target : PathC) : FS :=
  if fs.isSymlink target then fs.erase target
  else if fs.isDirPath target then fs.eraseTree target
  else if fs.isFilePath target then fs.erase target
  else fs

/-- The exceptions `create_symlink` can raise. -/
inductive SymlinkError
  | targetExists (target : PathC)
  | sourceMissing (source : PathC)
  | osFileExists (target : PathC)
deriving DecidableEq, Repr

/-- `create_symlink` from `src/pkglink/symlinks.py`.  Returns the
filesystem after the call together with either the raised exception or
the boolean result (`true` = real symlink, `false` = copy fallback).
The branch order mirrors the source: target-exists check, force removal,
source-exists check, then creation.  `symlinksSupported` stands for
`supports_symlinks()`; `osFileExists` is the OS-level error raised by
`os.symlink`/`shutil.copytree` when a (necessarily broken-link) entry
still occupies the target path. -/
def create_symlink (symlinksSupported : Bool) (fs : FS) (source target : PathC)
    (force : Bool) : FS × Except SymlinkError Bool :=
  if fs.existsPath target && !force then (fs, .error (.targetExists target))
  else
    let fs1 := if fs.existsPath target && force then remove_target fs target else fs
    if !(fs1.existsPath source) then (fs1, .error (.sourceMissing source))
    else if symlinksSupported then
      if (fs1.lookup target).isSome then (fs1, .error (.osFileExists target))
      else (fs1.insert target (.symlink source), .ok true)
    else if fs1.isDirPath source then
      if (fs1.lookup target).isSome then (fs1, .error (.osFileExists target))
      else (fs1.copytree source target, .ok false)
    else (fs1.insert target .file, .ok false)

/-! ## Single-link CLI flow (`src/pkglink/main.py`)

`main` parses the arguments, computes the target path, returns early when
the target already exists without `--force`, optionally stops for
`--dry-run`, resolves the source (installing through the external tool),
and finally calls `create_symlink`.  The installation step
(`resolve_source_path`) is an external collaborator here and is passed in
as `resolveSource`: from the filesystem it returns the updated
filesystem, the resolved package root or an error, and the list of
subprocess commands it executed. -/

structure ResolveOutcome where
  fs : FS
  result : Except String PathC
  calls : List (List String)

structure InstallEnv where
  resolveSource : FS → ResolveOutcome

structure MainArgs where
  specName : String
  symlinkName : Option String
  directory : String
  force : Bool
  dryRun : Bool

inductive MainOutcome
  | skippedExisting
  | dryRun
  | linked (usedSymlink : Bool)
  | errorExit
deriving DecidableEq, Repr

/-- The `main` flow of `src/pkglink/main.py` (lines 108-166) together
with `execute_symlink_operation`.  The working directory is the empty
path, so the computed target is `[symlink_name]`.  Any exception from
`create_symlink` is caught at the CLI boundary and turns into
`sys.exit(1)`. -/
def mainSymlinkName (a : MainArgs) : String :=
  match a.symlinkName with
  | some n => n
  | none => "." ++ a.specName

def pkglinkMain (env : InstallEnv) (symlinksSupported : Bool) (fs : FS)
    (a : MainArgs) : MainOutcome × FS × List (List String) :=
  let targetPath : PathC := [mainSymlinkName a]
  if fs.existsPath targetPath && !a.force then (.skippedExisting, fs, [])
  else if a.dryRun then (.dryRun, fs, [])
  else
    match env.resolveSource fs with
    | ⟨fs1, .error _, calls⟩ => (.errorExit, fs1, calls)
    | ⟨fs1, .ok sourcePath, calls⟩ =>
      let fullSourcePath := sourcePath ++ [a.directory]
      if !(fs1.existsPath fullSourcePath) then (.errorExit, fs1, calls)
      else
        match create_symlink symlinksSupported fs1 fullSourcePath targetPath a.force with
        | (fs2, .ok usedSymlink) => (.linked usedSymlink, fs2, calls)
        | (fs2, .error _) => (.errorExit, fs2, calls)

/-! ## Installer with cache policy (`install_with_uvx` in `src/pkglink/pkglinkx.py`)

The external pieces — the hash of the install spec and the behaviour of
the `uvx` subprocess — are abstracted into a `UvxEnv`.  `runUvx` maps the
exact command line to either the printed site-packages path or a
`CalledProcessError` carrying stderr. -/

structure UvxEnv where
  cacheBase : PathC
  hashHex8 : String → String
  runUvx : List String → Except String PathC

/-- `_should_refresh_cache` from `src/pkglink/pkglinkx.py`. -/
def shouldRefreshCache (fs : FS) (cacheDir : PathC) (spec : SourceSpec) : Bool :=
  if !(fs.existsPath cacheDir) then true
  else !(isImmutableReference spec)

structure InstallOutcome where
  fs : FS
  result : Except String PathC
  calls : List (List String)
deriving DecidableEq, Repr

/-- The python fragment run through uvx to print the site-packages
directory. -/
def sitePkgProbe : String := "import site; print(site.getsitepackages()[0])"

/-- The uvx command line built by `install_with_uvx`: the force-reinstall
flag is inserted exactly for mutable references. -/
def uvxCommand (forceReinstall : Bool) (installSpec : String) : List String :=
  (if forceReinstall then ["uvx", "--force-reinstall"] else ["uvx"])
    ++ ["--from", installSpec, "python", "-c", sitePkgProbe]

/-- Ensure the cache base directory exists
(`cache_base.mkdir(parents=True, exist_ok=True)`; parents are left
implicit in the model). -/
def FS.mkdirIfAbsent (fs : FS) (p : PathC) : FS :=
  if (fs.lookup p).isSome then fs else fs.insert p .dir

/-- `install_with_uvx` from `src/pkglink/pkglinkx.py` (lines 364-465):
build the install spec, compute the cache directory from the spec hash,
reuse the cache for immutable references, otherwise remove the stale
cache (tolerating a concurrent removal) and re-run uvx — with
`--force-reinstall` exactly when the reference is mutable — then copy the
resulting site-packages into the cache directory. -/
def install_with_uvx (env : UvxEnv) (fs : FS) (spec : SourceSpec) : InstallOutcome :=
  match build_uv_install_spec spec with
  | .error e => ⟨fs, .error e, []⟩
  | .ok installSpec =>
    let fs := fs.mkdirIfAbsent env.cacheBase
    let cacheDir := env.cacheBase ++ [spec.name ++ "_" ++ env.hashHex8 installSpec]
    if fs.existsPath cacheDir && !(shouldRefreshCache fs cacheDir spec) then
      ⟨fs, .ok cacheDir, []⟩
    else
      let fs1 := if fs.existsPath cacheDir then fs.eraseTree cacheDir else fs
      let forceReinstall := !(isImmutableReference spec)
      let cmd := uvxCommand forceReinstall installSpec
      match env.runUvx cmd with
      | .error stderr =>
        ⟨fs1, .error ("Failed to install " ++ spec.name ++ " with uvx: " ++ stderr), [cmd]⟩
      | .ok sitePackages =>
        ⟨fs1.copytree sitePackages cacheDir, .ok cacheDir, [cmd]⟩

/-! ## Batch conflict detection (`src/pkglink/config.py`)

The conflict check operates on resolved link contexts.  The
`PkglinkContext` record itself is produced outside `src/pkglink/config.py`
(in `pkglink.models` / `pkglink.parsing`, not part of the sources here);
the fields below are exactly the ones the conflict check reads:
`install_spec.project_name`, the full `install_spec` dump used for the
identical-spec comparison, `inside_pkglink`, the resolved symlink name,
and the entry label reported in error messages. -/

structure InstallSpecDump where
  project_name : String
  rest : String
deriving DecidableEq, Repr

structure LinkContext where
  install_spec : InstallSpecDump
  inside_pkglink : Bool
  resolved_symlink_name : String
  entry_label : String
deriving DecidableEq, Repr

/-- `dict.setdefault(key, []).append(v)` over an insertion-ordered
association list. -/
def addToGroup {α : Type} (groups : List (String × List α)) (key : String)
    (v : α) : List (String × List α) :=
  match groups with
  | [] => [(key, [v])]
  | (k, vs) :: rest =>
    if k = key then (k, vs ++ [v]) :: rest
    else (k, vs) :: addToGroup rest key v

/-- Registry lookup (`registry[value]`): the member list stored under a
key, empty when the key is absent. -/
def glookup {α : Type} (groups : List (String × List α)) (k : String) : List α :=
  ((groups.find? fun e => e.1 = k).map (·.2)).getD []

/-- Well-formedness of a registry built by `addToGroup`: keys are unique
and no group is empty. -/
def RegistryWF {α : Type} (groups : List (String × List α)) : Prop :=
  (groups.map Prod.fst).Nodup ∧ ∀ e ∈ groups, e.2 ≠ []

/-- `_group_contexts_by_project` from `src/pkglink/config.py`. -/
def groupContextsByProject (ctxs : List LinkContext) :
    List (String × List LinkContext) :=
  ctxs.foldl (fun groups c => addToGroup groups c.install_spec.project_name c) []

/-- The per-group body of `_find_project_duplicates`: a group of size one
is fine; a larger group is fine only when every member has the same
install spec dump and at most one member installs inside the pkglink
cache. -/
def projectGroupConflict (g : String × List LinkContext) :
    Option (String × List String) :=
  if g.2.length ≤ 1 then none
  else
    match g.2 with
    | [] => none
    | g0 :: grest =>
      if (grest.all fun o => g0.install_spec = o.install_spec)
          && ((g.2.filter fun c => c.inside_pkglink).length ≤ 1) then none
      else some (g.1, g.2.map fun c => c.entry_label)

/-- `_find_project_duplicates` from `src/pkglink/config.py`. -/
def findProjectDuplicates (groups : List (String × List LinkContext)) :
    List (String × List String) :=
  groups.filterMap projectGroupConflict

/-- `_collect_duplicates` from `src/pkglink/config.py`: build the
value-to-entries registry, skipping falsy values, and keep groups of size
greater than one. -/
def collectDuplicates (pairs : List (String × String)) : List (String × List String) :=
  let registry := pairs.foldl
    (fun reg p => if p.2 = "" then reg else addToGroup reg p.2 p.1) []
  registry.filter fun g => g.2.length > 1

/-- `_ensure_unique_link_targets` from `src/pkglink/config.py`: `none`
when there is nothing to report, otherwise the full project-name and
symlink-name duplicate listings carried by the raised
`PkglinkConfigError`. -/
def ensureUniqueLinkTargets (ctxs : List LinkContext) :
    Option (List (String × List String) × List (String × List String)) :=
  if findProjectDuplicates (groupContextsByProject ctxs) = []
      && collectDuplicates
          (ctxs.map fun c => (c.entry_label, c.resolved_symlink_name)) = [] then
    none
  else
    some (findProjectDuplicates (groupContextsByProject ctxs),
      collectDuplicates (ctxs.map fun c => (c.entry_label, c.resolved_symlink_name)))

/-- `_format_conflict_message` from `src/pkglink/config.py`. -/
def formatConflictMessage (projectConflicts symlinkConflicts : List (String × List String)) :
    String :=
  let projectLines :=
    if projectConflicts ≠ [] then
      "project_name conflicts:" ::
        projectConflicts.map (fun g =>
          "  " ++ "'" ++ g.1 ++ "' used by: " ++ String.intercalate ", " g.2)
    else []
  let symlinkLines :=
    if symlinkConflicts ≠ [] then
      "symlink_name conflicts:" ::
        symlinkConflicts.map (fun g =>
          "  " ++ "'" ++ g.1 ++ "' used by: " ++ String.intercalate ", " g.2)
    else []
  String.intercalate "\n"
    (["duplicate link targets detected:"] ++ projectLines ++ symlinkLines
      ++ ["Each project_name and symlink_name must be unique across links."])

/-! ### Claim-side conflict predicates (wording of C7) -/

/-- Claim wording: the members of a project-name group. -/
def projectGroupOf (ctxs : List LinkContext) (pn : String) : List LinkContext :=
  ctxs.filter fun c => c.install_spec.project_name = pn

/-- Claim wording: a project_name group of size greater than one is a
conflict unless all members have identical install specs and at most one
installs inside the pkglink cache. -/
def projectConflictWorded (ctxs : List LinkContext) (pn : String) : Prop :=
  1 < (projectGroupOf ctxs pn).length ∧
    ¬((∀ c1 ∈ projectGroupOf ctxs pn, ∀ c2 ∈ projectGroupOf ctxs pn,
        c1.install_spec = c2.install_spec) ∧
      ((projectGroupOf ctxs pn).filter fun c => c.inside_pkglink).length ≤ 1)

/-- Claim wording: the members of a symlink-name group. -/
def symlinkGroupOf (ctxs : List LinkContext) (sn : String) : List LinkContext :=
  ctxs.filter fun c => c.resolved_symlink_name = sn

/-- Claim wording: any symlink_name group of size greater than one is a
conflict. -/
def symlinkConflictWorded (ctxs : List LinkContext) (sn : String) : Prop :=
  1 < (symlinkGroupOf ctxs sn).length

/-! ## Shared lemmas about the filesystem model -/

theorem find?_filter_key {β : Type} (l : List (PathC × β)) (t p : PathC) (hp : p ≠ t) :
    (l.filter fun e => ¬(e.1 = t)).find? (fun e => e.1 = p) = l.find? fun e => e.1 = p := by
  induction l with
  | nil => rfl
  | cons e rest ih =>
    by_cases het : e.1 = t
    · have h2 : ¬((fun (a : PathC × β) => decide (a.1 = p)) e = true) := by
        simp only [decide_eq_true_eq]
        intro hcontra
        exact hp (by rw [← hcontra, het])
      rw [List.filter_cons_of_neg (by simpa using het), ih,
        List.find?_cons_of_neg rest h2]
    · rw [List.filter_cons_of_pos (by simpa using het)]
      by_cases hep : e.1 = p
      · rw [List.find?_cons_of_pos (List.filter (fun a => decide ¬(a.1 = t)) rest)
            (by simpa using hep),
          List.find?_cons_of_pos rest (by simpa using hep)]
      · rw [List.find?_cons_of_neg (List.filter (fun a => decide ¬(a.1 = t)) rest)
            (by simpa using hep),
          List.find?_cons_of_neg rest (by simpa using hep), ih]

theorem FS.lookup_erase_ne (fs : FS) (t p : PathC) (hp : p ≠ t) :
    (fs.erase t).lookup p = fs.lookup p := by
  unfold FS.erase FS.lookup
  rw [find?_filter_key fs.entries t p hp]

theorem FS.lookup_insert (fs : FS) (p : PathC) (n : FNode) :
    (fs.insert p n).lookup p = some n := by
  unfold FS.insert FS.lookup
  simp [List.find?_cons]

theorem FS.lookup_insert_ne (fs : FS) (p : PathC) (n : FNode) (q : PathC)
    (hq : q ≠ p) : (fs.insert p n).lookup q = fs.lookup q := by
  unfold FS.insert FS.lookup
  have hpq : (decide (p = q)) = false := by
    simp only [decide_eq_false_iff_not]
    intro h
    exact hq h.symm
  simp only [List.find?_cons, hpq]
  rw [find?_filter_key fs.entries p q hq]

theorem FS.resolveNode_of_lookup_none (fs : FS) (p : PathC) (fuel : Nat)
    (h : fs.lookup p = none) : fs.resolveNode fuel p = none := by
  cases fuel with
  | zero => rfl
  | succ f => simp [FS.resolveNode, h]

theorem FS.existsPath_of_lookup_none (fs : FS) (p : PathC)
    (h : fs.lookup p = none) : fs.existsPath p = false := by
  unfold FS.existsPath
  rw [FS.resolveNode_of_lookup_none fs p fs.fuel h]
  rfl

theorem FS.resolveNode_insert_frame (fs : FS) (q : PathC) (m : FNode)
    (hq : fs.lookup q = none) :
    ∀ (fuel : Nat) (p : PathC), (fs.resolveNode fuel p).isSome = true →
      (fs.insert q m).resolveNode fuel p = fs.resolveNode fuel p := by
  intro fuel
  induction fuel with
  | zero => intro p h; simp [FS.resolveNode] at h
  | succ f ih =>
    intro p h
    have hpq : p ≠ q := by
      intro e
      rw [FS.resolveNode] at h
      rw [e, hq] at h
      simp at h
    rw [FS.resolveNode, FS.lookup_insert_ne fs q m p hpq]
    rw [FS.resolveNode] at h ⊢
    cases hl : fs.lookup p with
    | none => rfl
    | some node =>
      cases node with
      | symlink d =>
        rw [hl] at h
        exact ih d h
      | file => rfl
      | dir => rfl

theorem FS.resolveNode_fuel_succ (fs : FS) :
    ∀ (fuel : Nat) (p : PathC) (n : FNode), fs.resolveNode fuel p = some n →
      fs.resolveNode (fuel + 1) p = some n := by
  intro fuel
  induction fuel with
  | zero => intro p n h; simp [FS.resolveNode] at h
  | succ f ih =>
    intro p n h
    rw [FS.resolveNode] at h ⊢
    cases hl : fs.lookup p with
    | none =>
      rw [hl] at h
      exact Option.noConfusion h
    | some node =>
      rw [hl] at h
      cases node with
      | symlink d => exact ih d n h
      | file => exact h
      | dir => exact h

theorem FS.entries_insert_of_lookup_none (fs : FS) (p : PathC) (n : FNode)
    (h : fs.lookup p = none) : (fs.insert p n).entries = (p, n) :: fs.entries := by
  unfold FS.insert
  have hfind : fs.entries.find? (fun e => e.1 = p) = none := by
    unfold FS.lookup at h
    exact Option.map_eq_none'.mp h
  have : fs.entries.filter (fun e => ¬(e.1 = p)) = fs.entries := by
    rw [List.filter_eq_self]
    intro e he
    have := List.find?_eq_none.mp hfind e he
    simpa using this
  rw [this]

theorem FS.existsPath_insert_frame (fs : FS) (q : PathC) (m : FNode)
    (hq : fs.lookup q = none) (p : PathC) (h : fs.existsPath p = true) :
    (fs.insert q m).existsPath p = true := by
  unfold FS.existsPath at h ⊢
  cases hr : fs.resolveNode fs.fuel p with
  | none => rw [hr] at h; simp at h
  | some n =>
    have h1 : fs.resolveNode (fs.insert q m).fuel p = some n := by
      have hlen : (fs.insert q m).fuel = fs.fuel + 1 := by
        unfold FS.fuel
        rw [FS.entries_insert_of_lookup_none fs q m hq]
        simp
      rw [hlen]
      exact FS.resolveNode_fuel_succ fs fs.fuel p n hr
    have h2 : (fs.insert q m).resolveNode (fs.insert q m).fuel p =
        fs.resolveNode (fs.insert q m).fuel p := by
      apply FS.resolveNode_insert_frame fs q m hq
      rw [h1]
      rfl
    rw [h2, h1]
    rfl

theorem remove_target_sublist (fs : FS) (t : PathC) :
    (remove_target fs t).entries.Sublist fs.entries := by
  unfold remove_target FS.erase FS.eraseTree
  split
  · exact List.filter_sublist fs.entries
  · split
    · exact List.filter_sublist fs.entries
    · split
      · exact List.filter_sublist fs.entries
      · exact List.Sublist.refl fs.entries

/-! ## Claim C3 -/

/-- C3: the claim (and the repository's own test-suite) says removal of a
target whose name lacks the managed dot prefix — such as
`important_directory` — must be refused with the directory left intact.
The `remove_target` in `src/pkglink/symlinks.py` has no such guard (and no
`expected_name` parameter): evaluated at the failing input it recursively
deletes the directory together with its contents. -/
theorem C3_remove_target_deletes_unmanaged_directory :
    remove_target
        ⟨[(["important_directory"], .dir),
          (["important_directory", "important_file.txt"], .file)]⟩
        ["important_directory"]
      = ⟨[]⟩ := by decide

/-! ## Claim C4 -/

/-- C4 (counterexample): with `force=true` and an existing target,
`create_symlink` removes the target *before* discovering that the source
does not exist, so the `source does not exist` error is raised after a
filesystem mutation — the pre-existing target is gone, refuting the
claim that the state is unchanged. -/
theorem C4_counterexample_mutation_before_source_check :
    (create_symlink true ⟨[(["target"], .file)]⟩ ["source"] ["target"] true).2
        = .error (.sourceMissing ["source"]) ∧
      (create_symlink true ⟨[(["target"], .file)]⟩ ["source"] ["target"] true).1
        ≠ ⟨[(["target"], .file)]⟩ := by decide

/-- C4 (amended): when the source does not exist (checked against the
state left by the force-removal step) and the target-exists error did not
fire first, `create_symlink` fails with the `source does not exist` error
having created nothing — the state is a sublist of the original entries,
and with `force=false` it is completely unchanged; the only possible
mutation before the error is the force-removal of the pre-existing
target. -/
theorem C4_source_missing_error :
    ∀ (sym : Bool) (fs : FS) (s t : PathC) (force : Bool) (fs1 : FS),
      fs1 = (if fs.existsPath t && force then remove_target fs t else fs) →
      (fs.existsPath t && !force) = false →
      fs1.existsPath s = false →
      create_symlink sym fs s t force = (fs1, .error (.sourceMissing s)) ∧
        fs1.entries.Sublist fs.entries ∧
        (force = false → fs1 = fs) := by
  intro sym fs s t force fs1 hfs1 h1 h2
  refine ⟨?_, ?_, ?_⟩
  · unfold create_symlink
    rw [h1]
    simp only [Bool.false_eq_true, if_false]
    rw [← hfs1, h2]
    simp
  · rw [hfs1]
    split
    · exact remove_target_sublist fs t
    · exact List.Sublist.refl fs.entries
  · intro hforce
    rw [hfs1, hforce]
    simp

theorem C4_source_missing_error_witness :
    create_symlink true ⟨[(["t"], .file)]⟩ ["s"] ["t"] true
        = (⟨[]⟩, .error (.sourceMissing ["s"])) ∧
      (⟨[]⟩ : FS).entries.Sublist (⟨[(["t"], FNode.file)]⟩ : FS).entries ∧
      (true = false → (⟨[]⟩ : FS) = ⟨[(["t"], .file)]⟩) :=
  C4_source_missing_error true ⟨[(["t"], .file)]⟩ ["s"] ["t"] true ⟨[]⟩
    (by decide) (by decide) (by decide)

/-! ## Claim C9 -/

/-- C9: `remove_target` on a symlink — including a symlink to a directory
— unlinks only the link entry itself: every other path, in particular the
whole tree the link points to, is untouched; and the recursive
`shutil.rmtree` branch is reached only for paths that are real
directories, never for symlinks. -/
theorem C9_remove_target_symlink_only_unlinks :
    (∀ (fs : FS) (t d : PathC), fs.lookup t = some (.symlink d) →
        remove_target fs t = fs.erase t ∧
          ∀ p, p ≠ t → (remove_target fs t).lookup p = fs.lookup p) ∧
      (∀ (fs : FS) (t : PathC), fs.isSymlink t = false → fs.isDirPath t = true →
        remove_target fs t = fs.eraseTree t) := by
  constructor
  · intro fs t d h
    have hsym : fs.isSymlink t = true := by
      unfold FS.isSymlink
      rw [h]
    have hrm : remove_target fs t = fs.erase t := by
      unfold remove_target
      rw [hsym]
      simp
    refine ⟨hrm, ?_⟩
    intro p hp
    rw [hrm]
    exact FS.lookup_erase_ne fs t p hp
  · intro fs t h1 h2
    unfold remove_target
    rw [h1, h2]
    simp

theorem C9_remove_target_symlink_only_unlinks_witness :
    remove_target
        ⟨[(["link"], .symlink ["real"]), (["real"], .dir),
          (["real", "data.txt"], .file)]⟩ ["link"]
      = FS.erase
          ⟨[(["link"], .symlink ["real"]), (["real"], .dir),
            (["real", "data.txt"], .file)]⟩ ["link"] ∧
    (remove_target
        ⟨[(["link"], .symlink ["real"]), (["real"], .dir),
          (["real", "data.txt"], .file)]⟩ ["link"]).lookup ["real", "data.txt"]
      = FS.lookup
          ⟨[(["link"], .symlink ["real"]), (["real"], .dir),
            (["real", "data.txt"], .file)]⟩ ["real", "data.txt"] :=
  ⟨(C9_remove_target_symlink_only_unlinks.1
      ⟨[(["link"], .symlink ["real"]), (["real"], .dir),
        (["real", "data.txt"], .file)]⟩ ["link"] ["real"] (by decide)).1,
    (C9_remove_target_symlink_only_unlinks.1
      ⟨[(["link"], .symlink ["real"]), (["real"], .dir),
        (["real", "data.txt"], .file)]⟩ ["link"] ["real"] (by decide)).2
      ["real", "data.txt"] (by decide)⟩

/-! ## Claim C10 -/

/-- C10: in the single-link CLI flow, an existing target with
`force=false` makes `main` return success immediately: no installer
subprocess runs, the filesystem is untouched, no error is raised —
whatever kind of entry occupies the target path. -/
theorem C10_existing_target_short_circuits :
    ∀ (env : InstallEnv) (sym : Bool) (fs : FS) (a : MainArgs),
      a.force = false →
      fs.existsPath [mainSymlinkName a] = true →
      pkglinkMain env sym fs a = (.skippedExisting, fs, []) := by
  intro env sym fs a hf he
  simp [pkglinkMain, he, hf]

theorem C10_existing_target_short_circuits_witness :
    pkglinkMain ⟨fun s => ⟨s, .error "boom", [["uvx"]]⟩⟩ true
        ⟨[([".pkg"], .dir)]⟩ ⟨"pkg", none, "resources", false, false⟩
      = (.skippedExisting, ⟨[([".pkg"], .dir)]⟩, []) :=
  C10_existing_target_short_circuits ⟨fun s => ⟨s, .error "boom", [["uvx"]]⟩⟩ true
    ⟨[([".pkg"], .dir)]⟩ ⟨"pkg", none, "resources", false, false⟩ rfl (by decide)

/-! ## Claim C2 -/

/-- C2: running the single-link flow twice with identical inputs and
`force=false` mutates the filesystem only on the first run — which
installs and creates the symlink — while the second run finds the target
(now a symlink whose destination is exactly the intended source, which
still resolves) and is a pure no-op returning the distinguishable
skipped outcome rather than an error: same state, no subprocess calls. -/
theorem C2_reconciler_idempotent :
    ∀ (env : InstallEnv) (fs0 fs1 : FS) (a : MainArgs) (sp : PathC)
      (calls : List (List String)),
      a.force = false → a.dryRun = false →
      fs0.lookup [mainSymlinkName a] = none →
      env.resolveSource fs0 = ⟨fs1, .ok sp, calls⟩ →
      fs1.lookup [mainSymlinkName a] = none →
      fs1.existsPath (sp ++ [a.directory]) = true →
      pkglinkMain env true fs0 a
        = (.linked true,
            fs1.insert [mainSymlinkName a] (.symlink (sp ++ [a.directory])), calls) ∧
      (fs1.insert [mainSymlinkName a] (.symlink (sp ++ [a.directory]))).lookup
          [mainSymlinkName a]
        = some (.symlink (sp ++ [a.directory])) ∧
      pkglinkMain env true
          (fs1.insert [mainSymlinkName a] (.symlink (sp ++ [a.directory]))) a
        = (.skippedExisting,
            fs1.insert [mainSymlinkName a] (.symlink (sp ++ [a.directory])), []) := by
  intro env fs0 fs1 a sp calls hforce hdry h0 hres h1 hsrc
  have he0 : fs0.existsPath [mainSymlinkName a] = false :=
    FS.existsPath_of_lookup_none fs0 [mainSymlinkName a] h0
  have he1 : fs1.existsPath [mainSymlinkName a] = false :=
    FS.existsPath_of_lookup_none fs1 [mainSymlinkName a] h1
  have hcs : create_symlink true fs1 (sp ++ [a.directory]) [mainSymlinkName a] a.force
      = (fs1.insert [mainSymlinkName a] (.symlink (sp ++ [a.directory])), .ok true) := by
    unfold create_symlink
    simp [he1, hsrc, h1]
  have he2 : (fs1.insert [mainSymlinkName a]
      (.symlink (sp ++ [a.directory]))).existsPath [mainSymlinkName a] = true := by
    unfold FS.existsPath
    have hfuel : (fs1.insert [mainSymlinkName a]
        (.symlink (sp ++ [a.directory]))).fuel = fs1.fuel + 1 := by
      unfold FS.fuel
      rw [FS.entries_insert_of_lookup_none fs1 [mainSymlinkName a] _ h1]
      simp
    rw [hfuel, FS.resolveNode, FS.lookup_insert]
    show ((fs1.insert [mainSymlinkName a]
        (.symlink (sp ++ [a.directory]))).resolveNode fs1.fuel
        (sp ++ [a.directory])).isSome = true
    rw [FS.resolveNode_insert_frame fs1 [mainSymlinkName a] _ h1 fs1.fuel
      (sp ++ [a.directory]) hsrc]
    exact hsrc
  refine ⟨?_, FS.lookup_insert fs1 [mainSymlinkName a] _, ?_⟩
  · simp [pkglinkMain, he0, hdry, hres, hsrc, hcs]
  · simp [pkglinkMain, he2, hforce]

theorem C2_reconciler_idempotent_witness :
    pkglinkMain
        ⟨fun _ => ⟨⟨[(["cache"], .dir), (["cache", "resources"], .dir)]⟩,
          .ok ["cache"], [["uvx", "--from", "pkg"]]⟩⟩ true ⟨[]⟩
        ⟨"pkg", none, "resources", false, false⟩
      = (.linked true,
          FS.insert ⟨[(["cache"], .dir), (["cache", "resources"], .dir)]⟩
            [".pkg"] (.symlink ["cache", "resources"]),
          [["uvx", "--from", "pkg"]]) ∧
    (FS.insert ⟨[(["cache"], .dir), (["cache", "resources"], .dir)]⟩
        [".pkg"] (.symlink ["cache", "resources"])).lookup [".pkg"]
      = some (.symlink ["cache", "resources"]) ∧
    pkglinkMain
        ⟨fun _ => ⟨⟨[(["cache"], .dir), (["cache", "resources"], .dir)]⟩,
          .ok ["cache"], [["uvx", "--from", "pkg"]]⟩⟩ true
        (FS.insert ⟨[(["cache"], .dir), (["cache", "resources"], .dir)]⟩
          [".pkg"] (.symlink ["cache", "resources"]))
        ⟨"pkg", none, "resources", false, false⟩
      = (.skippedExisting,
          FS.insert ⟨[(["cache"], .dir), (["cache", "resources"], .dir)]⟩
            [".pkg"] (.symlink ["cache", "resources"]), []) :=
  C2_reconciler_idempotent
    ⟨fun _ => ⟨⟨[(["cache"], .dir), (["cache", "resources"], .dir)]⟩,
      .ok ["cache"], [["uvx", "--from", "pkg"]]⟩⟩ ⟨[]⟩
    ⟨[(["cache"], .dir), (["cache", "resources"], .dir)]⟩
    ⟨"pkg", none, "resources", false, false⟩ ["cache"] [["uvx", "--from", "pkg"]]
    rfl rfl (by decide) rfl (by decide) (by decide)

/-! ## Claim C1 -/

/-- C1: for a non-local spec (one whose uv install spec builds) whose
cache directory already exists: an immutable spec reuses the cache as-is
with no subprocess call; a mutable spec removes the stale cache
directory, re-invokes uvx with the `--force-reinstall` flag, and the
cache directory is recreated by copying the fresh install into it. -/
theorem C1_cache_refresh_policy :
    ∀ (env : UvxEnv) (fs : FS) (spec : SourceSpec) (ispec : String),
      build_uv_install_spec spec = .ok ispec →
      (fs.mkdirIfAbsent env.cacheBase).existsPath
          (env.cacheBase ++ [spec.name ++ "_" ++ env.hashHex8 ispec]) = true →
      (isImmutableReference spec = true →
        install_with_uvx env fs spec
          = ⟨fs.mkdirIfAbsent env.cacheBase,
              .ok (env.cacheBase ++ [spec.name ++ "_" ++ env.hashHex8 ispec]), []⟩) ∧
      (isImmutableReference spec = false →
        uvxCommand true ispec
            = ["uvx", "--force-reinstall", "--from", ispec, "python", "-c", sitePkgProbe] ∧
        ∀ sp, env.runUvx (uvxCommand true ispec) = .ok sp →
          install_with_uvx env fs spec
            = ⟨((fs.mkdirIfAbsent env.cacheBase).eraseTree
                  (env.cacheBase ++ [spec.name ++ "_" ++ env.hashHex8 ispec])).copytree sp
                  (env.cacheBase ++ [spec.name ++ "_" ++ env.hashHex8 ispec]),
                .ok (env.cacheBase ++ [spec.name ++ "_" ++ env.hashHex8 ispec]),
                [uvxCommand true ispec]⟩) := by
  intro env fs spec ispec hbuild hex
  constructor
  · intro himm
    unfold install_with_uvx
    rw [hbuild]
    simp [shouldRefreshCache, hex, himm]
  · intro himm
    refine ⟨rfl, ?_⟩
    intro sp hrun
    unfold install_with_uvx
    rw [hbuild]
    simp [shouldRefreshCache, hex, himm, hrun]

theorem C1_cache_refresh_policy_witness :
    uvxCommand true "git+https://github.com/org/repo.git@main"
        = ["uvx", "--force-reinstall", "--from",
            "git+https://github.com/org/repo.git@main", "python", "-c", sitePkgProbe] ∧
    install_with_uvx
        ⟨["cache"], fun _ => "h", fun _ => .ok ["site"]⟩
        ⟨[(["cache"], .dir), (["cache", "repo_h"], .dir),
          (["cache", "repo_h", "old.txt"], .file)]⟩
        ⟨.github, "repo", some "main", some "org"⟩
      = ⟨((FS.mkdirIfAbsent
              ⟨[(["cache"], .dir), (["cache", "repo_h"], .dir),
                (["cache", "repo_h", "old.txt"], .file)]⟩ ["cache"]).eraseTree
              (["cache"] ++ ["repo" ++ "_" ++ "h"])).copytree ["site"]
            (["cache"] ++ ["repo" ++ "_" ++ "h"]),
          .ok (["cache"] ++ ["repo" ++ "_" ++ "h"]),
          [uvxCommand true "git+https://github.com/org/repo.git@main"]⟩ :=
  ⟨((C1_cache_refresh_policy ⟨["cache"], fun _ => "h", fun _ => .ok ["site"]⟩
      ⟨[(["cache"], .dir), (["cache", "repo_h"], .dir),
        (["cache", "repo_h", "old.txt"], .file)]⟩
      ⟨.github, "repo", some "main", some "org"⟩
      "git+https://github.com/org/repo.git@main" (by decide) (by decide)).2
      (by decide)).1,
    ((C1_cache_refresh_policy ⟨["cache"], fun _ => "h", fun _ => .ok ["site"]⟩
      ⟨[(["cache"], .dir), (["cache", "repo_h"], .dir),
        (["cache", "repo_h", "old.txt"], .file)]⟩
      ⟨.github, "repo", some "main", some "org"⟩
      "git+https://github.com/org/repo.git@main" (by decide) (by decide)).2
      (by decide)).2 ["site"] rfl⟩

/-! ## Claim C5 -/

theorem locatorChain_eq_none_iff (items : List DirItem) (expected : String) :
    locatorChain items expected = none ↔
      (find_exact_match items expected = none ∧ find_python_package items = none ∧
        find_with_resources items = none ∧ find_by_startsWith items expected = none ∧
        find_by_endsWith items expected = none ∧ find_by_similarity items expected = none ∧
        find_first_directory items = none) := by
  unfold locatorChain
  cases h1 : find_exact_match items expected <;>
    cases h2 : find_python_package items <;>
      cases h3 : find_with_resources items <;>
        cases h4 : find_by_startsWith items expected <;>
          cases h5 : find_by_endsWith items expected <;>
            cases h6 : find_by_similarity items expected <;>
              cases h7 : find_first_directory items <;>
                simp [Option.orElse]

theorem find_package_root_eq_chain (installDir : String) (items : List DirItem)
    (expected : String) :
    find_package_root installDir items expected =
      match locatorChain items expected with
      | some r => .ok r
      | none => .error (.packageRootNotFound expected installDir) := by
  unfold find_package_root locatorChain
  cases h1 : find_exact_match items expected <;>
    cases h2 : find_python_package items <;>
      cases h3 : find_with_resources items <;>
        cases h4 : find_by_startsWith items expected <;>
          cases h5 : find_by_endsWith items expected <;>
            cases h6 : find_by_similarity items expected <;>
              cases h7 : find_first_directory items <;>
                simp [Option.orElse]

/-- C5: the locator evaluates its strategies in the fixed order
exact-name, package marker, resources directory, prefix, suffix,
similarity (0.6 threshold), first plain directory, returning the first
success; an exact-name directory is always chosen over any fuzzy
candidate; and it fails — naming the expected name and the install
directory — exactly when all seven strategies fail. -/
theorem C5_locator_strategy_order :
    ∀ (installDir : String) (items : List DirItem) (expected : String),
      (find_package_root installDir items expected =
        match locatorChain items expected with
        | some r => .ok r
        | none => .error (.packageRootNotFound expected installDir)) ∧
      ((∃ it ∈ items, it.isDir = true ∧ it.name = expected) →
        find_exact_match items expected ≠ none) ∧
      (∀ it, find_exact_match items expected = some it →
        it.isDir = true ∧ it.name = expected ∧
          find_package_root installDir items expected = .ok it) ∧
      (∀ e, find_package_root installDir items expected = .error e ↔
        (e = .packageRootNotFound expected installDir ∧
          find_exact_match items expected = none ∧ find_python_package items = none ∧
          find_with_resources items = none ∧ find_by_startsWith items expected = none ∧
          find_by_endsWith items expected = none ∧ find_by_similarity items expected = none ∧
          find_first_directory items = none)) := by
  intro installDir items expected
  refine ⟨find_package_root_eq_chain installDir items expected, ?_, ?_, ?_⟩
  · intro hex
    have hsome : (items.find? fun item => item.isDir && item.name = expected).isSome := by
      rw [List.find?_isSome]
      obtain ⟨it, hin, hd, hn⟩ := hex
      exact ⟨it, hin, by simp [hd, hn]⟩
    intro heq
    unfold find_exact_match at heq
    rw [heq] at hsome
    simp at hsome
  · intro it heq
    have hr := List.find?_some heq
    simp only [Bool.and_eq_true, decide_eq_true_eq] at hr
    refine ⟨hr.1, hr.2, ?_⟩
    rw [find_package_root_eq_chain]
    unfold locatorChain
    rw [heq]
    rfl
  · intro e
    rw [find_package_root_eq_chain]
    cases hc : locatorChain items expected with
    | some r =>
      simp only []
      constructor
      · intro h
        exact absurd h (by simp)
      · intro h
        have : locatorChain items expected = none :=
          (locatorChain_eq_none_iff items expected).mpr h.2
        rw [hc] at this
        exact Option.noConfusion this
    | none =>
      have hall := (locatorChain_eq_none_iff items expected).mp hc
      simp only []
      constructor
      · intro h
        refine ⟨?_, hall⟩
        cases h
        rfl
      · intro h
        rw [h.1]

theorem C5_locator_strategy_order_witness :
    find_exact_match
        [⟨"mypackage2", true, false, false⟩, ⟨"mypackage", true, false, false⟩]
        "mypackage" ≠ none ∧
      ((⟨"mypackage", true, false, false⟩ : DirItem).isDir = true ∧
        (⟨"mypackage", true, false, false⟩ : DirItem).name = "mypackage" ∧
        find_package_root "install"
            [⟨"mypackage2", true, false, false⟩, ⟨"mypackage", true, false, false⟩]
            "mypackage" = .ok ⟨"mypackage", true, false, false⟩) :=
  ⟨(C5_locator_strategy_order "install"
      [⟨"mypackage2", true, false, false⟩, ⟨"mypackage", true, false, false⟩]
      "mypackage").2.1 (by decide),
    (C5_locator_strategy_order "install"
      [⟨"mypackage2", true, false, false⟩, ⟨"mypackage", true, false, false⟩]
      "mypackage").2.2.1 ⟨"mypackage", true, false, false⟩ (by decide)⟩

/-! ## Claim C6 -/

theorem charEqOfToNat (c d : Char) (n : Nat) (h : c.val.toNat = n)
    (hd : d.val.toNat = n) : c = d := by
  apply Char.eq_of_val_eq
  apply UInt32.ext
  rw [h, hd]

theorem hexChar_iff (c : Char) :
    (('a' ≤ c && c ≤ 'f') || ('0' ≤ c && c ≤ '9')) = true ↔ c ∈ hexLowerChars := by
  constructor
  · intro h
    simp only [Bool.or_eq_true, Bool.and_eq_true, decide_eq_true_eq] at h
    rcases h with ⟨h1, h2⟩ | ⟨h1, h2⟩
    · have hv1 : 97 ≤ c.val.toNat := h1
      have hv2 : c.val.toNat ≤ 102 := h2
      interval_cases hn : c.val.toNat
      · simp [hexLowerChars, charEqOfToNat c 'a' 97 hn rfl]
      · simp [hexLowerChars, charEqOfToNat c 'b' 98 hn rfl]
      · simp [hexLowerChars, charEqOfToNat c 'c' 99 hn rfl]
      · simp [hexLowerChars, charEqOfToNat c 'd' 100 hn rfl]
      · simp [hexLowerChars, charEqOfToNat c 'e' 101 hn rfl]
      · simp [hexLowerChars, charEqOfToNat c 'f' 102 hn rfl]
    · have hv1 : 48 ≤ c.val.toNat := h1
      have hv2 : c.val.toNat ≤ 57 := h2
      interval_cases hn : c.val.toNat
      · simp [hexLowerChars, charEqOfToNat c '0' 48 hn rfl]
      · simp [hexLowerChars, charEqOfToNat c '1' 49 hn rfl]
      · simp [hexLowerChars, charEqOfToNat c '2' 50 hn rfl]
      · simp [hexLowerChars, charEqOfToNat c '3' 51 hn rfl]
      · simp [hexLowerChars, charEqOfToNat c '4' 52 hn rfl]
      · simp [hexLowerChars, charEqOfToNat c '5' 53 hn rfl]
      · simp [hexLowerChars, charEqOfToNat c '6' 54 hn rfl]
      · simp [hexLowerChars, charEqOfToNat c '7' 55 hn rfl]
      · simp [hexLowerChars, charEqOfToNat c '8' 56 hn rfl]
      · simp [hexLowerChars, charEqOfToNat c '9' 57 hn rfl]
  · intro h
    simp only [hexLowerChars, List.mem_cons, List.not_mem_nil, or_false] at h
    rcases h with h | h | h | h | h | h | h | h | h | h | h | h | h | h | h | h <;>
      subst h <;> decide

theorem isCommitHashMatch_iff (v : String) :
    isCommitHashMatch v.toList = true ↔ commitHashWorded v := by
  unfold isCommitHashMatch commitHashWorded
  simp only [Bool.and_eq_true, List.all_eq_true, decide_eq_true_eq]
  constructor
  · intro ⟨h1, h2⟩
    exact ⟨h1, fun c hc => (hexChar_iff c).mp (h2 c hc)⟩
  · intro ⟨h1, h2⟩
    exact ⟨h1, fun c hc => (hexChar_iff c).mpr (h2 c hc)⟩

theorem takeWhile_all_append (p : Char → Bool) (a : List Char) (d : Char)
    (t : List Char) (ha : ∀ x ∈ a, p x = true) (hd : p d = false) :
    (a ++ d :: t).takeWhile p = a ∧ (a ++ d :: t).dropWhile p = d :: t := by
  induction a with
  | nil => simp [List.takeWhile_cons, List.dropWhile_cons, hd]
  | cons x xs ih =>
    have hx : p x = true := ha x (by simp)
    have ihr := ih fun y hy => ha y (by simp [hy])
    simp only [List.cons_append, List.takeWhile_cons, List.dropWhile_cons, hx, if_true]
    exact ⟨by rw [ihr.1], ihr.2⟩

theorem eatDigits1_append_dot (a t : List Char) (ha : a ≠ [])
    (hd : ∀ x ∈ a, x.isDigit = true) :
    eatDigits1 (a ++ '.' :: t) = some ('.' :: t) := by
  have h := takeWhile_all_append Char.isDigit a '.' t hd (by decide)
  unfold eatDigits1
  rw [h.1, h.2]
  simp [ha]

theorem eatDigits1_isSome_cons (c : Char) (cs t : List Char)
    (hc : c.isDigit = true) : (eatDigits1 (c :: cs ++ t)).isSome = true := by
  unfold eatDigits1
  simp [List.takeWhile_cons, hc]

theorem eatDigits1_eq_some (l r : List Char) (h : eatDigits1 l = some r) :
    ∃ a, a ≠ [] ∧ (∀ x ∈ a, x.isDigit = true) ∧ l = a ++ r := by
  unfold eatDigits1 at h
  split at h
  · exact Option.noConfusion h
  · refine ⟨l.takeWhile Char.isDigit, by assumption, ?_, ?_⟩
    · intro x hx
      exact List.mem_takeWhile_imp hx
    · have hr : r = l.dropWhile Char.isDigit := by
        have := h
        injection this with hh
        exact hh.symm
      rw [hr, List.takeWhile_append_dropWhile]

theorem semverCore_iff (l : List Char) :
    semverCore l = true ↔
      ∃ (a b c rest : List Char),
        a ≠ [] ∧ b ≠ [] ∧ c ≠ [] ∧
        (∀ x ∈ a, x.isDigit = true) ∧ (∀ x ∈ b, x.isDigit = true) ∧
        (∀ x ∈ c, x.isDigit = true) ∧
        l = a ++ '.' :: (b ++ '.' :: (c ++ rest)) := by
  constructor
  · intro h
    unfold semverCore at h
    cases h1 : eatDigits1 l with
    | none => rw [h1] at h; exact Bool.noConfusion h
    | some l1 =>
      rw [h1] at h
      obtain ⟨a, haN, haD, haE⟩ := eatDigits1_eq_some l l1 h1
      cases l1 with
      | nil => exact Bool.noConfusion h
      | cons c1 l2 =>
        have h' : (if c1 = '.' then semverNum2 l2 else false) = true := h
        by_cases hc1 : c1 = '.'
        · rw [if_pos hc1] at h'
          unfold semverNum2 at h'
          cases h2 : eatDigits1 l2 with
          | none => rw [h2] at h'; exact Bool.noConfusion h'
          | some l3 =>
            rw [h2] at h'
            obtain ⟨b, hbN, hbD, hbE⟩ := eatDigits1_eq_some l2 l3 h2
            cases l3 with
            | nil => exact Bool.noConfusion h'
            | cons c2 l4 =>
              have h'' : (if c2 = '.' then (eatDigits1 l4).isSome else false) = true := h'
              by_cases hc2 : c2 = '.'
              · rw [if_pos hc2] at h''
                cases h3 : eatDigits1 l4 with
                | none => rw [h3] at h''; exact Bool.noConfusion h''
                | some l5 =>
                  obtain ⟨c, hcN, hcD, hcE⟩ := eatDigits1_eq_some l4 l5 h3
                  refine ⟨a, b, c, l5, haN, hbN, hcN, haD, hbD, hcD, ?_⟩
                  rw [haE, hbE, hcE, hc1, hc2]
              · rw [if_neg hc2] at h''
                exact Bool.noConfusion h''
        · rw [if_neg hc1] at h'
          exact Bool.noConfusion h'
  · intro ⟨a, b, c, rest, haN, hbN, hcN, haD, hbD, hcD, hl⟩
    unfold semverCore
    rw [hl]
    rw [eatDigits1_append_dot a (b ++ '.' :: (c ++ rest)) haN haD]
    show (if '.' = '.' then semverNum2 (b ++ '.' :: (c ++ rest)) else false) = true
    rw [if_pos rfl]
    unfold semverNum2
    rw [eatDigits1_append_dot b (c ++ rest) hbN hbD]
    show (if '.' = '.' then (eatDigits1 (c ++ rest)).isSome else false) = true
    rw [if_pos rfl]
    cases c with
    | nil => exact absurd rfl hcN
    | cons c0 cs =>
      rw [List.cons_append]
      exact eatDigits1_isSome_cons c0 cs rest (hcD c0 (by simp))

theorem isSemverTagMatch_iff (v : String) :
    isSemverTagMatch v.toList = true ↔ semverLikeWorded v := by
  constructor
  · intro h
    unfold semverLikeWorded
    cases hv : v.toList with
    | nil =>
      unfold isSemverTagMatch at h
      rw [hv] at h
      exact Bool.noConfusion h
    | cons c0 rest =>
      unfold isSemverTagMatch at h
      rw [hv] at h
      have h' : (if c0 = 'v' then semverCore rest else semverCore (c0 :: rest))
          = true := h
      by_cases hc0 : c0 = 'v'
      · rw [if_pos hc0] at h'
        obtain ⟨a, b, c, r, haN, hbN, hcN, haD, hbD, hcD, hl⟩ :=
          (semverCore_iff rest).mp h'
        exact ⟨['v'], a, b, c, r, Or.inr rfl, haN, hbN, hcN, haD, hbD, hcD, by
          rw [hl, hc0]
          rfl⟩
      · rw [if_neg hc0] at h'
        obtain ⟨a, b, c, r, haN, hbN, hcN, haD, hbD, hcD, hl⟩ :=
          (semverCore_iff (c0 :: rest)).mp h'
        exact ⟨[], a, b, c, r, Or.inl rfl, haN, hbN, hcN, haD, hbD, hcD, by
          simpa using hl⟩
  · intro ⟨pre, a, b, c, rest, hpre, haN, hbN, hcN, haD, hbD, hcD, hl⟩
    have hcoreArg : semverCore (a ++ '.' :: (b ++ '.' :: (c ++ rest))) = true := by
      rw [semverCore_iff]
      exact ⟨a, b, c, rest, haN, hbN, hcN, haD, hbD, hcD, rfl⟩
    unfold isSemverTagMatch
    rcases hpre with hpre | hpre
    · rw [hpre] at hl
      simp only [List.nil_append] at hl
      rw [hl]
      cases a with
      | nil => exact absurd rfl haN
      | cons a0 as =>
        have ha0 : a0.isDigit = true := haD a0 (by simp)
        have ha0v : ¬(a0 = 'v') := by
          intro e
          rw [e] at ha0
          exact Bool.noConfusion ha0
        rw [List.cons_append]
        show (if a0 = 'v' then semverCore (as ++ '.' :: (b ++ '.' :: (c ++ rest)))
            else semverCore (a0 :: (as ++ '.' :: (b ++ '.' :: (c ++ rest)))))
          = true
        rw [if_neg ha0v, ← List.cons_append]
        exact hcoreArg
    · rw [hpre] at hl
      rw [hl]
      show (if ('v' : Char) = 'v'
          then semverCore (a ++ '.' :: (b ++ '.' :: (c ++ rest)))
          else semverCore ('v' :: (a ++ '.' :: (b ++ '.' :: (c ++ rest)))))
        = true
      rw [if_pos rfl]
      exact hcoreArg

theorem pyTruthy_iff (o : Option String) :
    pyTruthy o = true ↔ ∃ v, o = some v ∧ v ≠ "" := by
  cases o with
  | none => simp [pyTruthy]
  | some s =>
    simp only [pyTruthy, Bool.not_eq_true', Option.some.injEq]
    constructor
    · intro h
      refine ⟨s, rfl, ?_⟩
      intro e
      rw [e] at h
      exact Bool.noConfusion h
    · intro ⟨v, hv, hne⟩
      subst hv
      cases he : s.isEmpty with
      | false => rfl
      | true => exact absurd (String.isEmpty_iff s |>.mp he) hne

/-- C6: the mutability classification is a pure function of the
`SourceSpec` agreeing exactly with the wording of the claim: immutable
iff package-with-explicit-version, or github with a 40-character
lowercase-hex commit hash or a semantic-version-like tag; everything
else — `main`, absent versions, local specs — is mutable; and equal
specs always classify identically. -/
theorem C6_mutability_pure_classification :
    (∀ spec : SourceSpec, isImmutableReference spec = true ↔ immutableWorded spec) ∧
      (∀ s t : SourceSpec, s = t → isImmutableReference s = isImmutableReference t) := by
  constructor
  · intro spec
    obtain ⟨st, nm, ver, org⟩ := spec
    cases st with
    | package =>
      have hval : isImmutableReference ⟨.package, nm, ver, org⟩ = pyTruthy ver := by
        cases hv : pyTruthy ver <;> simp [isImmutableReference, hv]
      rw [hval]
      constructor
      · intro h
        exact Or.inl ⟨rfl, (pyTruthy_iff ver).mp h⟩
      · rintro (⟨_, hv⟩ | ⟨hcontra, _⟩)
        · exact (pyTruthy_iff ver).mpr hv
        · exact SourceType.noConfusion hcontra
    | github =>
      have hval : isImmutableReference ⟨.github, nm, ver, org⟩
          = (pyTruthy ver &&
              (isCommitHashMatch (ver.getD "").toList
                || isSemverTagMatch (ver.getD "").toList)) := by
        cases hv : pyTruthy ver <;> simp [isImmutableReference, hv]
      rw [hval]
      simp only [Bool.and_eq_true, Bool.or_eq_true]
      constructor
      · rintro ⟨hv, hcs⟩
        obtain ⟨v, hveq, hvne⟩ := (pyTruthy_iff ver).mp hv
        subst hveq
        right
        refine ⟨rfl, v, rfl, hvne, ?_⟩
        rcases hcs with h | h
        · exact Or.inl ((isCommitHashMatch_iff v).mp (by simpa using h))
        · exact Or.inr ((isSemverTagMatch_iff v).mp (by simpa using h))
      · rintro (⟨hcontra, _⟩ | ⟨_, v, hveq, hvne, hcs⟩)
        · exact SourceType.noConfusion hcontra
        · subst hveq
          refine ⟨(pyTruthy_iff _).mpr ⟨v, rfl, hvne⟩, ?_⟩
          rcases hcs with h | h
          · exact Or.inl (by simpa using (isCommitHashMatch_iff v).mpr h)
          · exact Or.inr (by simpa using (isSemverTagMatch_iff v).mpr h)
    | «local» =>
      have hval : isImmutableReference ⟨.local, nm, ver, org⟩ = false := by
        simp [isImmutableReference]
      rw [hval]
      constructor
      · intro h
        exact Bool.noConfusion h
      · rintro (⟨hcontra, _⟩ | ⟨hcontra, _⟩) <;> exact SourceType.noConfusion hcontra
  · intro s t h
    rw [h]

theorem C6_mutability_pure_classification_witness :
    (isImmutableReference ⟨.github, "repo", some "main", some "org"⟩ = true ↔
      immutableWorded ⟨.github, "repo", some "main", some "org"⟩) ∧
    isImmutableReference ⟨.github, "repo", some "main", some "org"⟩
      = isImmutableReference ⟨.github, "repo", some "main", some "org"⟩ :=
  ⟨C6_mutability_pure_classification.1 ⟨.github, "repo", some "main", some "org"⟩,
    C6_mutability_pure_classification.2 ⟨.github, "repo", some "main", some "org"⟩
      ⟨.github, "repo", some "main", some "org"⟩ rfl⟩

/-! ## Claim C8 -/

theorem string_mk_inj (a b : List Char) : ((⟨a⟩ : String) = ⟨b⟩) ↔ a = b := by
  constructor
  · intro h
    injection h
  · intro h
    rw [h]

theorem string_toList_append (a b : String) :
    (a ++ b).toList = a.toList ++ b.toList := rfl

theorem isPrefixOf_append_self (pre l : List Char) :
    pre.isPrefixOf (pre ++ l) = true := by
  induction pre with
  | nil => simp [List.isPrefixOf]
  | cons x xs ih => simp [List.isPrefixOf, ih]

theorem splitFirst_append_cons (c : Char) (l1 l2 : List Char) (h : c ∉ l1) :
    splitFirst c (l1 ++ c :: l2) = some (l1, l2) := by
  induction l1 with
  | nil => simp [splitFirst]
  | cons x xs ih =>
    have hx : ¬(x = c) := by
      intro e
      apply h
      rw [e]
      exact List.mem_cons_self c xs
    have ihr := ih fun m => h (List.mem_cons_of_mem x m)
    show (if x = c then some ([], xs ++ c :: l2)
        else
          match splitFirst c (xs ++ c :: l2) with
          | none => none
          | some (a, b) => some (x :: a, b))
      = some (x :: xs, l2)
    rw [if_neg hx, ihr]

theorem dropWhile_eq_self_of_head (p : Char → Bool) (l : List Char)
    (h : ∀ x, l.head? = some x → p x = false) : l.dropWhile p = l := by
  cases l with
  | nil => rfl
  | cons x xs =>
    rw [List.dropWhile_cons, h x rfl]
    simp

theorem stripL_eq_self_of_ends (l : List Char)
    (hh : ∀ x, l.head? = some x → x.isWhitespace = false)
    (hl : ∀ x, l.getLast? = some x → x.isWhitespace = false) :
    stripL l = l := by
  unfold stripL
  rw [dropWhile_eq_self_of_head Char.isWhitespace l hh]
  rw [dropWhile_eq_self_of_head Char.isWhitespace l.reverse
    (fun x hx => hl x (by rw [← List.head?_reverse]; exact hx))]
  exact List.reverse_reverse l

theorem stripL_eq_self_of_all (l : List Char)
    (h : ∀ x ∈ l, x.isWhitespace = false) : stripL l = l := by
  apply stripL_eq_self_of_ends
  · intro x hx
    exact h x (by
      cases l with
      | nil => exact Option.noConfusion hx
      | cons y ys =>
        injection hx with he
        rw [← he]
        exact List.mem_cons_self y ys)
  · intro x hx
    have h2 : l.reverse.head? = some x := by
      rw [List.head?_reverse]
      exact hx
    have h3 : x ∈ l.reverse := List.mem_of_mem_head? h2
    exact h x (by simpa using h3)

/-- C8 (counterexample): the concrete round trip at
`github:org/repo@v1.2.3`.  The normalized install string is a git URL;
reparsing it goes through the package branch, so the reparse yields
kind=package with the whole URL as the name and no org — not the original
`(github, repo, org, v1.2.3)`. -/
theorem C8_counterexample_reparse_changes_kind :
    parse_source "github:org/repo@v1.2.3"
        = .ok ⟨.github, "repo", some "v1.2.3", some "org"⟩ ∧
      build_uv_install_spec ⟨.github, "repo", some "v1.2.3", some "org"⟩
        = .ok "git+https://github.com/org/repo.git@v1.2.3" ∧
      parse_source "git+https://github.com/org/repo.git@v1.2.3"
        = .ok ⟨.package, "git+https://github.com/org/repo.git",
            some "v1.2.3", none⟩ ∧
      (⟨.package, "git+https://github.com/org/repo.git", some "v1.2.3", none⟩
          : SourceSpec)
        ≠ ⟨.github, "repo", some "v1.2.3", some "org"⟩ := by decide

theorem parse_github_ok (org nm ver : List Char)
    (hOrgW : ∀ x ∈ org, x.isWhitespace = false) (hOrgN : org ≠ [])
    (hOrgS : '/' ∉ org)
    (hNmW : ∀ x ∈ nm, x.isWhitespace = false) (hNmN : nm ≠ [])
    (hNmS : '/' ∉ nm) (hNmA : '@' ∉ nm)
    (hVer : stripL ver = ver) (hVerN : ver ≠ []) :
    parse_source ⟨ghMarker ++ (org ++ '/' :: (nm ++ '@' :: ver))⟩
      = .ok ⟨.github, ⟨nm⟩, some ⟨ver⟩, some ⟨org⟩⟩ := by
  have hOrg : stripL org = org := stripL_eq_self_of_all org hOrgW
  have hNm : stripL nm = nm := stripL_eq_self_of_all nm hNmW
  have h1 : ghMarker.isPrefixOf (ghMarker ++ (org ++ '/' :: (nm ++ '@' :: ver)))
      = true := isPrefixOf_append_self ghMarker _
  have h2 : (ghMarker ++ (org ++ '/' :: (nm ++ '@' :: ver))).drop 7
      = org ++ '/' :: (nm ++ '@' :: ver) := by
    simp [ghMarker]
  have hc : nm.contains '/' = false := by simpa using hNmS
  have h3 : githubGroups (org ++ '/' :: (nm ++ '@' :: ver))
      = some (org, nm, some ver) := by
    unfold githubGroups
    rw [splitFirst_append_cons '/' org _ hOrgS]
    show githubTail org (nm ++ '@' :: ver) = some (org, nm, some ver)
    unfold githubTail
    rw [if_neg hOrgN, splitFirst_append_cons '@' nm ver hNmA]
    show (if (decide (nm = []) || nm.contains '/' || decide (ver = [])) = true
        then none else some (org, nm, some ver))
      = some (org, nm, some ver)
    rw [if_neg (by simp [hNmN, hVerN, hNmS])]
  simp only [parse_source, show (String.toList
      ⟨ghMarker ++ (org ++ '/' :: (nm ++ '@' :: ver))⟩)
      = ghMarker ++ (org ++ '/' :: (nm ++ '@' :: ver)) from rfl, h1, h2, h3,
    if_true]
  rw [hOrg, hNm]
  have hcond : (decide (org = []) || decide (nm = [])) = false := by
    simp [hOrgN, hNmN]
  rw [hcond]
  simp only [Bool.false_eq_true, if_false]
  unfold mkSourceSpec
  rw [show pyStrip ⟨nm⟩ = ⟨stripL nm⟩ from rfl, hNm]
  rw [if_neg (by rw [show ("" : String) = ⟨[]⟩ from rfl, string_mk_inj]; exact hNmN)]
  simp [hVer]

theorem string_ne_empty_of_ne_nil (a : List Char) (h : a ≠ []) :
    (⟨a⟩ : String) ≠ "" := by
  intro e
  apply h
  rw [show ("" : String) = ⟨[]⟩ from rfl] at e
  exact (string_mk_inj a []).mp e

theorem pyTruthy_some_mk (a : List Char) (h : a ≠ []) :
    pyTruthy (some ⟨a⟩) = true := by
  have hne := string_ne_empty_of_ne_nil a h
  cases he : (⟨a⟩ : String).isEmpty with
  | true => exact absurd ((String.isEmpty_iff ⟨a⟩).mp he) hne
  | false =>
    show (!(⟨a⟩ : String).isEmpty) = true
    rw [he]
    rfl

theorem string_ext_list (a b : String) (h : a.toList = b.toList) : a = b := by
  cases a
  cases b
  rw [show ∀ l : List Char, String.toList ⟨l⟩ = l from fun _ => rfl] at h
  rw [show ∀ l : List Char, String.toList ⟨l⟩ = l from fun _ => rfl] at h
  rw [h]

theorem build_github_url (nm ver org : List Char) (hVerN : ver ≠ []) :
    build_uv_install_spec ⟨.github, ⟨nm⟩, some ⟨ver⟩, some ⟨org⟩⟩
      = .ok ⟨gitBase ++ (org ++ '/' :: (nm ++ (gitSfx ++ '@' :: ver)))⟩ := by
  unfold build_uv_install_spec
  rw [pyTruthy_some_mk ver hVerN]
  simp only [if_true]
  congr 1
  apply string_ext_list
  simp only [string_toList_append]
  rw [show ("git+https://github.com/" : String).toList = gitBase from rfl,
    show ("/" : String).toList = ['/'] from rfl,
    show (".git" : String).toList = gitSfx from rfl,
    show ("@" : String).toList = ['@'] from rfl,
    show (String.toList ⟨org⟩) = org from rfl,
    show (String.toList ⟨nm⟩) = nm from rfl,
    show (Option.getD (some (⟨ver⟩ : String)) "").toList = ver from rfl]
  simp [List.append_assoc]

theorem parse_git_url (org nm ver : List Char)
    (hOrgA : '@' ∉ org) (hNmA : '@' ∉ nm) (hVerN : ver ≠ []) :
    parse_source ⟨gitBase ++ (org ++ '/' :: (nm ++ (gitSfx ++ '@' :: ver)))⟩
      = .ok ⟨.package, ⟨gitBase ++ (org ++ '/' :: (nm ++ gitSfx))⟩,
          some ⟨ver⟩, none⟩ := by
  have hgh : ghMarker.isPrefixOf
      (gitBase ++ (org ++ '/' :: (nm ++ (gitSfx ++ '@' :: ver)))) = false := rfl
  have hloc : localMarker
      (gitBase ++ (org ++ '/' :: (nm ++ (gitSfx ++ '@' :: ver)))) = false := rfl
  have hnotat : '@' ∉ gitBase ++ (org ++ '/' :: (nm ++ gitSfx)) := by
    intro hmem
    simp only [List.mem_append, List.mem_cons] at hmem
    rcases hmem with h | h | h | h | h
    · exact absurd h (by decide)
    · exact hOrgA h
    · exact absurd h (by decide)
    · exact hNmA h
    · exact absurd h (by decide)
  have hassoc : gitBase ++ (org ++ '/' :: (nm ++ (gitSfx ++ '@' :: ver)))
      = (gitBase ++ (org ++ '/' :: (nm ++ gitSfx))) ++ '@' :: ver := by
    simp [List.append_assoc]
  have hsp : splitFirst '@'
      (gitBase ++ (org ++ '/' :: (nm ++ (gitSfx ++ '@' :: ver))))
      = some (gitBase ++ (org ++ '/' :: (nm ++ gitSfx)), ver) := by
    rw [hassoc]
    exact splitFirst_append_cons '@' _ ver hnotat
  have hne : gitBase ++ (org ++ '/' :: (nm ++ gitSfx)) ≠ [] := by
    simp [gitBase]
  have hstrip : stripL (gitBase ++ (org ++ '/' :: (nm ++ gitSfx)))
      = gitBase ++ (org ++ '/' :: (nm ++ gitSfx)) := by
    apply stripL_eq_self_of_ends
    · intro x hx
      have : x = 'g' := by
        rw [show gitBase ++ (org ++ '/' :: (nm ++ gitSfx))
            = 'g' :: (gitBase.tail ++ (org ++ '/' :: (nm ++ gitSfx))) from rfl] at hx
        injection hx with he
        exact he.symm
      rw [this]
      rfl
    · intro x hx
      have hlast : (gitBase ++ (org ++ '/' :: (nm ++ gitSfx))).getLast?
          = some 't' := by
        rw [List.getLast?_append, List.getLast?_append]
        rw [show ('/' :: (nm ++ gitSfx)) = ['/'] ++ (nm ++ gitSfx) from rfl]
        rw [List.getLast?_append, List.getLast?_append]
        rfl
      rw [hlast] at hx
      injection hx with he
      rw [← he]
      rfl
  unfold parse_source
  rw [show (String.toList ⟨gitBase ++ (org ++ '/' :: (nm ++ (gitSfx ++ '@' :: ver)))⟩)
      = gitBase ++ (org ++ '/' :: (nm ++ (gitSfx ++ '@' :: ver))) from rfl]
  rw [hgh, hloc]
  simp only [Bool.false_eq_true, if_false]
  rw [hsp]
  show (if (decide ((gitBase ++ (org ++ '/' :: (nm ++ gitSfx))) = [])
        || decide (ver = [])) = true
      then Except.error (invalidSourceMsg
        ⟨gitBase ++ (org ++ '/' :: (nm ++ (gitSfx ++ '@' :: ver)))⟩)
      else mkSourceSpec .package ⟨gitBase ++ (org ++ '/' :: (nm ++ gitSfx))⟩
        (some ⟨ver⟩) none)
    = .ok ⟨.package, ⟨gitBase ++ (org ++ '/' :: (nm ++ gitSfx))⟩, some ⟨ver⟩, none⟩
  rw [if_neg (by simp [hne, hVerN])]
  unfold mkSourceSpec
  rw [show pyStrip ⟨gitBase ++ (org ++ '/' :: (nm ++ gitSfx))⟩
      = ⟨stripL (gitBase ++ (org ++ '/' :: (nm ++ gitSfx)))⟩ from rfl, hstrip]
  rw [if_neg (string_ne_empty_of_ne_nil _ hne)]

/-- C8 (amended): for every well-formed `github:org/name@version` string
(org and name slash-free, at-free, whitespace-free and non-empty; version
non-empty and strip-invariant), parsing succeeds with the expected
github spec and the version is carried through the round trip — but
reparsing the reconstructed normalized install string yields a
package-kind spec whose name is the whole git URL and whose org is
`None`, rather than the original `(github, name, org)` decomposition. -/
theorem C8_roundtrip_amended :
    ∀ (org nm ver : List Char),
      (∀ x ∈ org, x.isWhitespace = false) → org ≠ [] → '/' ∉ org → '@' ∉ org →
      (∀ x ∈ nm, x.isWhitespace = false) → nm ≠ [] → '/' ∉ nm → '@' ∉ nm →
      stripL ver = ver → ver ≠ [] →
      parse_source ⟨ghMarker ++ (org ++ '/' :: (nm ++ '@' :: ver))⟩
          = .ok ⟨.github, ⟨nm⟩, some ⟨ver⟩, some ⟨org⟩⟩ ∧
        build_uv_install_spec ⟨.github, ⟨nm⟩, some ⟨ver⟩, some ⟨org⟩⟩
          = .ok ⟨gitBase ++ (org ++ '/' :: (nm ++ (gitSfx ++ '@' :: ver)))⟩ ∧
        parse_source ⟨gitBase ++ (org ++ '/' :: (nm ++ (gitSfx ++ '@' :: ver)))⟩
          = .ok ⟨.package, ⟨gitBase ++ (org ++ '/' :: (nm ++ gitSfx))⟩,
              some ⟨ver⟩, none⟩ := by
  intro org nm ver hOrgW hOrgN hOrgS hOrgA hNmW hNmN hNmS hNmA hVer hVerN
  exact ⟨parse_github_ok org nm ver hOrgW hOrgN hOrgS hNmW hNmN hNmS hNmA hVer hVerN,
    build_github_url nm ver org hVerN,
    parse_git_url org nm ver hOrgA hNmA hVerN⟩

theorem C8_roundtrip_amended_witness :
    parse_source "github:org/repo@v1.2.3"
        = .ok ⟨.github, "repo", some "v1.2.3", some "org"⟩ ∧
      build_uv_install_spec ⟨.github, "repo", some "v1.2.3", some "org"⟩
        = .ok "git+https://github.com/org/repo.git@v1.2.3" ∧
      parse_source "git+https://github.com/org/repo.git@v1.2.3"
        = .ok ⟨.package, "git+https://github.com/org/repo.git",
            some "v1.2.3", none⟩ :=
  C8_roundtrip_amended "org".toList "repo".toList "v1.2.3".toList
    (by decide) (by decide) (by decide) (by decide)
    (by decide) (by decide) (by decide) (by decide)
    (by decide) (by decide)

/-! ## Claim C7 -/

theorem glookup_cons_eq {α : Type} (q : String) (vs : List α)
    (l : List (String × List α)) : glookup ((q, vs) :: l) q = vs := by
  simp [glookup, List.find?_cons]

theorem glookup_cons_ne {α : Type} (k : String) (vs : List α)
    (l : List (String × List α)) (q : String) (h : ¬(k = q)) :
    glookup ((k, vs) :: l) q = glookup l q := by
  simp [glookup, List.find?_cons, h]

theorem glookup_addToGroup {α : Type} (acc : List (String × List α))
    (k : String) (v : α) (q : String) :
    glookup (addToGroup acc k v) q
      = if q = k then glookup acc q ++ [v] else glookup acc q := by
  induction acc with
  | nil =>
    by_cases hq : q = k
    · rw [if_pos hq, hq]
      rw [show addToGroup ([] : List (String × List α)) k v = [(k, [v])] from rfl]
      rw [glookup_cons_eq k [v] []]
      simp [glookup]
    · rw [if_neg hq]
      rw [show addToGroup ([] : List (String × List α)) k v = [(k, [v])] from rfl]
      rw [glookup_cons_ne k [v] [] q (fun e => hq e.symm)]
  | cons e rest ih =>
    obtain ⟨k', vs⟩ := e
    rw [show addToGroup ((k', vs) :: rest) k v
        = if k' = k then (k', vs ++ [v]) :: rest
          else (k', vs) :: addToGroup rest k v from rfl]
    by_cases hk : k' = k
    · rw [if_pos hk]
      by_cases hq : q = k
      · have hkq : k' = q := hk.trans hq.symm
        rw [hkq, if_pos hq, glookup_cons_eq q (vs ++ [v]) rest,
          glookup_cons_eq q vs rest]
      · have hk'q : ¬(k' = q) := fun e => hq (e.symm.trans hk)
        rw [if_neg hq, glookup_cons_ne k' (vs ++ [v]) rest q hk'q,
          glookup_cons_ne k' vs rest q hk'q]
    · rw [if_neg hk]
      by_cases hq : q = k'
      · rw [hq, if_neg hk, glookup_cons_eq k' vs (addToGroup rest k v),
          glookup_cons_eq k' vs rest]
      · rw [glookup_cons_ne k' vs (addToGroup rest k v) q (fun e => hq e.symm),
          ih, glookup_cons_ne k' vs rest q (fun e => hq e.symm)]

theorem keys_addToGroup {α : Type} (acc : List (String × List α))
    (k : String) (v : α) (q : String) :
    q ∈ (addToGroup acc k v).map Prod.fst
      ↔ (q ∈ acc.map Prod.fst ∨ q = k) := by
  induction acc with
  | nil => simp [addToGroup]
  | cons e rest ih =>
    obtain ⟨k', vs⟩ := e
    rw [show addToGroup ((k', vs) :: rest) k v
        = if k' = k then (k', vs ++ [v]) :: rest
          else (k', vs) :: addToGroup rest k v from rfl]
    by_cases hk : k' = k
    · subst hk
      rw [if_pos rfl]
      constructor
      · intro h
        exact Or.inl h
      · intro h
        rcases h with h | h
        · exact h
        · subst h
          simp
    · rw [if_neg hk]
      simp only [List.map_cons, List.mem_cons]
      constructor
      · intro h
        rcases h with h | h
        · exact Or.inl (Or.inl h)
        · rcases ih.mp h with h2 | h2
          · exact Or.inl (Or.inr h2)
          · exact Or.inr h2
      · intro h
        rcases h with (h | h) | h
        · exact Or.inl h
        · exact Or.inr (ih.mpr (Or.inl h))
        · exact Or.inr (ih.mpr (Or.inr h))

theorem registryWF_addToGroup {α : Type} (acc : List (String × List α))
    (k : String) (v : α) (h : RegistryWF acc) :
    RegistryWF (addToGroup acc k v) := by
  obtain ⟨hnd, hne⟩ := h
  induction acc with
  | nil =>
    constructor
    · simp [addToGroup]
    · intro e he
      simp only [addToGroup, List.mem_singleton] at he
      rw [he]
      simp
  | cons e0 rest ih =>
    obtain ⟨k', vs⟩ := e0
    rw [show addToGroup ((k', vs) :: rest) k v
        = if k' = k then (k', vs ++ [v]) :: rest
          else (k', vs) :: addToGroup rest k v from rfl]
    simp only [List.map_cons, List.nodup_cons] at hnd
    by_cases hk : k' = k
    · rw [if_pos hk]
      constructor
      · simp only [List.map_cons, List.nodup_cons]
        exact hnd
      · intro e he
        rcases List.mem_cons.mp he with he | he
        · rw [he]
          simp
        · exact hne e (List.mem_cons_of_mem _ he)
    · rw [if_neg hk]
      have ihr := ih hnd.2 fun e he => hne e (List.mem_cons_of_mem _ he)
      constructor
      · simp only [List.map_cons, List.nodup_cons]
        refine ⟨?_, ihr.1⟩
        intro hmem
        rcases (keys_addToGroup rest k v k').mp hmem with h2 | h2
        · exact hnd.1 h2
        · exact hk h2
      · intro e he
        rcases List.mem_cons.mp he with he | he
        · rw [he]
          exact hne (k', vs) (List.mem_cons_self _ _)
        · exact ihr.2 e he

theorem find?_of_mem_nodupKeys {α : Type} (groups : List (String × List α))
    (q : String) (vs : List α) (hnd : (groups.map Prod.fst).Nodup)
    (hmem : (q, vs) ∈ groups) :
    groups.find? (fun e => e.1 = q) = some (q, vs) := by
  induction groups with
  | nil => exact absurd hmem (List.not_mem_nil _)
  | cons e rest ih =>
    obtain ⟨k', ws⟩ := e
    simp only [List.map_cons, List.nodup_cons] at hnd
    rcases List.mem_cons.mp hmem with he | he
    · have hk : k' = q := (congrArg Prod.fst he).symm
      rw [he]
      rw [List.find?_cons_of_pos _ (by simp [hk]), ← he]
    · have hkq : ¬(k' = q) := by
        intro e
        subst e
        exact hnd.1 (by simpa using List.mem_map_of_mem Prod.fst he)
      rw [List.find?_cons_of_neg _ (by simpa using hkq)]
      exact ih hnd.2 he

theorem mem_registry_iff {α : Type} (groups : List (String × List α))
    (hwf : RegistryWF groups) (q : String) (vs : List α) :
    (q, vs) ∈ groups ↔ (glookup groups q = vs ∧ vs ≠ []) := by
  constructor
  · intro hmem
    refine ⟨?_, hwf.2 (q, vs) hmem⟩
    unfold glookup
    rw [find?_of_mem_nodupKeys groups q vs hwf.1 hmem]
    rfl
  · intro ⟨hg, hne⟩
    unfold glookup at hg
    cases hf : groups.find? (fun e => e.1 = q) with
    | none =>
      rw [hf] at hg
      simp at hg
      exact absurd hg.symm (fun e => hne (e.symm))
    | some e =>
      obtain ⟨e1, e2⟩ := e
      rw [hf] at hg
      simp only [Option.map_some', Option.getD_some] at hg
      have he1 : e1 = q := by simpa using List.find?_some hf
      have hmem := List.mem_of_find?_eq_some hf
      rw [he1, hg] at hmem
      exact hmem

theorem glookup_foldl_groupBy (l : List LinkContext) :
    ∀ (acc : List (String × List LinkContext)) (q : String),
      glookup (l.foldl (fun g c => addToGroup g c.install_spec.project_name c) acc) q
        = glookup acc q ++ l.filter (fun c => c.install_spec.project_name = q) := by
  induction l with
  | nil =>
    intro acc q
    simp
  | cons c0 l' ih =>
    intro acc q
    show glookup (l'.foldl (fun g c => addToGroup g c.install_spec.project_name c)
        (addToGroup acc c0.install_spec.project_name c0)) q = _
    rw [ih (addToGroup acc c0.install_spec.project_name c0) q,
      glookup_addToGroup acc c0.install_spec.project_name c0 q]
    by_cases hq : q = c0.install_spec.project_name
    · rw [if_pos hq, List.filter_cons_of_pos (by simp [hq])]
      simp
    · rw [if_neg hq, List.filter_cons_of_neg (by simp; exact fun e => hq e.symm)]

theorem glookup_groupBy (ctxs : List LinkContext) (q : String) :
    glookup (groupContextsByProject ctxs) q = projectGroupOf ctxs q := by
  unfold groupContextsByProject projectGroupOf
  rw [glookup_foldl_groupBy ctxs [] q]
  simp [glookup]

theorem registryWF_nil {α : Type} : RegistryWF ([] : List (String × List α)) := by
  constructor
  · simp
  · intro e he
    exact absurd he (List.not_mem_nil e)

theorem registryWF_groupBy (ctxs : List LinkContext) :
    RegistryWF (groupContextsByProject ctxs) := by
  unfold groupContextsByProject
  have haux : ∀ (l : List LinkContext) (acc : List (String × List LinkContext)),
      RegistryWF acc →
      RegistryWF (l.foldl (fun g c => addToGroup g c.install_spec.project_name c) acc) := by
    intro l
    induction l with
    | nil => intro acc h; exact h
    | cons c0 l' ih =>
      intro acc h
      exact ih _ (registryWF_addToGroup acc _ c0 h)
  exact haux ctxs [] registryWF_nil

theorem glookup_foldl_registry (pairs : List (String × String)) :
    ∀ (acc : List (String × List String)) (q : String), q ≠ "" →
      glookup (pairs.foldl
          (fun reg p => if p.2 = "" then reg else addToGroup reg p.2 p.1) acc) q
        = glookup acc q ++ (pairs.filter (fun p => p.2 = q)).map Prod.fst := by
  induction pairs with
  | nil =>
    intro acc q _
    simp
  | cons p0 ps ih =>
    intro acc q hq
    show glookup (ps.foldl (fun reg p => if p.2 = "" then reg else addToGroup reg p.2 p.1)
        (if p0.2 = "" then acc else addToGroup acc p0.2 p0.1)) q = _
    rw [ih _ q hq]
    by_cases h0 : p0.2 = ""
    · rw [if_pos h0, List.filter_cons_of_neg (by
        simp only [decide_eq_true_eq]
        intro e
        exact hq (by rw [← e, h0]))]
    · rw [if_neg h0, glookup_addToGroup acc p0.2 p0.1 q]
      by_cases hq2 : q = p0.2
      · rw [if_pos hq2, List.filter_cons_of_pos (by simp [hq2])]
        simp
      · rw [if_neg hq2, List.filter_cons_of_neg (by simp; exact fun e => hq2 e.symm)]

theorem glookup_foldl_registry_emptyKey (pairs : List (String × String)) :
    ∀ (acc : List (String × List String)),
      glookup (pairs.foldl
          (fun reg p => if p.2 = "" then reg else addToGroup reg p.2 p.1) acc) ""
        = glookup acc "" := by
  induction pairs with
  | nil => intro acc; rfl
  | cons p0 ps ih =>
    intro acc
    show glookup (ps.foldl (fun reg p => if p.2 = "" then reg else addToGroup reg p.2 p.1)
        (if p0.2 = "" then acc else addToGroup acc p0.2 p0.1)) "" = _
    rw [ih _]
    by_cases h0 : p0.2 = ""
    · rw [if_pos h0]
    · rw [if_neg h0, glookup_addToGroup acc p0.2 p0.1 "", if_neg (fun e => h0 e.symm)]

theorem registryWF_foldl_registry (pairs : List (String × String)) :
    ∀ (acc : List (String × List String)), RegistryWF acc →
      RegistryWF (pairs.foldl
        (fun reg p => if p.2 = "" then reg else addToGroup reg p.2 p.1) acc) := by
  induction pairs with
  | nil => intro acc h; exact h
  | cons p0 ps ih =>
    intro acc h
    show RegistryWF (ps.foldl (fun reg p => if p.2 = "" then reg else addToGroup reg p.2 p.1)
        (if p0.2 = "" then acc else addToGroup acc p0.2 p0.1))
    apply ih
    by_cases h0 : p0.2 = ""
    · rw [if_pos h0]
      exact h
    · rw [if_neg h0]
      exact registryWF_addToGroup acc p0.2 p0.1 h

theorem symPairs_filter (ctxs : List LinkContext) (q : String) :
    ((ctxs.map fun c => (c.entry_label, c.resolved_symlink_name)).filter
        (fun p => p.2 = q)).map Prod.fst
      = (symlinkGroupOf ctxs q).map (fun c => c.entry_label) := by
  rw [List.filter_map, List.map_map]
  unfold symlinkGroupOf
  rfl

theorem projectGroupConflict_some_iff (pn : String) (grp : List LinkContext)
    (out : String × List String) :
    projectGroupConflict (pn, grp) = some out ↔
      (1 < grp.length ∧
        ¬((∀ c1 ∈ grp, ∀ c2 ∈ grp, c1.install_spec = c2.install_spec) ∧
          ((grp.filter fun c => c.inside_pkglink).length ≤ 1)) ∧
        out = (pn, grp.map fun c => c.entry_label)) := by
  unfold projectGroupConflict
  by_cases hlen : grp.length ≤ 1
  · rw [if_pos hlen]
    constructor
    · intro h
      exact Option.noConfusion h
    · intro ⟨h1, _, _⟩
      omega
  · rw [if_neg hlen]
    have hlt : 1 < grp.length := Nat.lt_of_not_le hlen
    cases grp with
    | nil => simp at hlt
    | cons g0 grest =>
      have hred : (match (pn, g0 :: grest).2 with
          | [] => (none : Option (String × List String))
          | g0 :: grest =>
            if (grest.all fun o => g0.install_spec = o.install_spec)
                && (((pn, g0 :: grest).2.filter fun c => c.inside_pkglink).length ≤ 1)
            then none
            else some ((pn, g0 :: grest).1,
              (pn, g0 :: grest).2.map fun c => c.entry_label))
          = (if (grest.all fun o => g0.install_spec = o.install_spec)
                && (((g0 :: grest).filter fun c => c.inside_pkglink).length ≤ 1)
            then none
            else some (pn, (g0 :: grest).map fun c => c.entry_label)) := rfl
      rw [hred]
      have hpair : ((grest.all fun o => g0.install_spec = o.install_spec)
            && (((g0 :: grest).filter fun c => c.inside_pkglink).length ≤ 1)) = true
          ↔ ((∀ c1 ∈ g0 :: grest, ∀ c2 ∈ g0 :: grest,
              c1.install_spec = c2.install_spec) ∧
            (((g0 :: grest).filter fun c => c.inside_pkglink).length ≤ 1)) := by
        simp only [Bool.and_eq_true, List.all_eq_true, decide_eq_true_eq]
        constructor
        · intro ⟨ha, hb⟩
          refine ⟨?_, hb⟩
          have he : ∀ c ∈ g0 :: grest, g0.install_spec = c.install_spec := by
            intro c hc
            rcases List.mem_cons.mp hc with h | h
            · rw [h]
            · exact ha c h
          intro c1 hc1 c2 hc2
          exact (he c1 hc1).symm.trans (he c2 hc2)
        · intro ⟨ha, hb⟩
          refine ⟨?_, hb⟩
          intro o ho
          exact ha g0 (List.mem_cons_self g0 grest) o (List.mem_cons_of_mem g0 ho)
      by_cases hcond : ((grest.all fun o => g0.install_spec = o.install_spec)
          && (((g0 :: grest).filter fun c => c.inside_pkglink).length ≤ 1)) = true
      · rw [if_pos hcond]
        constructor
        · intro h
          exact Option.noConfusion h
        · intro ⟨_, h2, _⟩
          exact absurd (hpair.mp hcond) h2
      · rw [if_neg hcond]
        constructor
        · intro h
          injection h with hout
          exact ⟨hlt, fun hc => hcond (hpair.mpr hc), hout.symm⟩
        · intro ⟨_, _, h3⟩
          rw [h3]

theorem mem_findProjectDuplicates_iff (ctxs : List LinkContext) (pn : String)
    (labels : List String) :
    (pn, labels) ∈ findProjectDuplicates (groupContextsByProject ctxs) ↔
      (projectConflictWorded ctxs pn ∧
        labels = (projectGroupOf ctxs pn).map fun c => c.entry_label) := by
  unfold findProjectDuplicates
  rw [List.mem_filterMap]
  constructor
  · rintro ⟨⟨pn', grp⟩, hmem, hsome⟩
    have hwf := registryWF_groupBy ctxs
    have hglook := (mem_registry_iff _ hwf pn' grp).mp hmem
    have hgrp : grp = projectGroupOf ctxs pn' := by
      rw [← glookup_groupBy ctxs pn']
      exact hglook.1.symm
    obtain ⟨h1, h2, h3⟩ := (projectGroupConflict_some_iff pn' grp _).mp hsome
    have hpn : pn = pn' := congrArg Prod.fst h3
    have hlab : labels = grp.map fun c => c.entry_label := congrArg Prod.snd h3
    subst hpn
    constructor
    · unfold projectConflictWorded
      rw [← hgrp]
      exact ⟨h1, h2⟩
    · rw [hlab, hgrp]
  · rintro ⟨hconf, hlab⟩
    have hwf := registryWF_groupBy ctxs
    have hne : projectGroupOf ctxs pn ≠ [] := by
      intro e
      unfold projectConflictWorded at hconf
      rw [e] at hconf
      simp at hconf
    refine ⟨(pn, projectGroupOf ctxs pn), ?_, ?_⟩
    · exact (mem_registry_iff _ hwf pn _).mpr ⟨glookup_groupBy ctxs pn, hne⟩
    · apply (projectGroupConflict_some_iff pn (projectGroupOf ctxs pn)
        (pn, labels)).mpr
      exact ⟨hconf.1, hconf.2, by rw [hlab]⟩

theorem mem_collectDuplicates_iff (ctxs : List LinkContext)
    (hni : ∀ c ∈ ctxs, c.resolved_symlink_name ≠ "") (sn : String)
    (labels : List String) :
    (sn, labels) ∈ collectDuplicates
        (ctxs.map fun c => (c.entry_label, c.resolved_symlink_name)) ↔
      (symlinkConflictWorded ctxs sn ∧
        labels = (symlinkGroupOf ctxs sn).map fun c => c.entry_label) := by
  have hwf : RegistryWF ((ctxs.map fun c => (c.entry_label, c.resolved_symlink_name)).foldl
      (fun reg p => if p.2 = "" then reg else addToGroup reg p.2 p.1) []) :=
    registryWF_foldl_registry _ [] registryWF_nil
  unfold collectDuplicates
  rw [List.mem_filter]
  by_cases hsn : sn = ""
  · subst hsn
    constructor
    · intro ⟨hmem, _⟩
      have hglook := (mem_registry_iff _ hwf "" labels).mp hmem
      rw [glookup_foldl_registry_emptyKey _ []] at hglook
      have hl : labels = [] := hglook.1.symm
      exact absurd hl hglook.2
    · intro ⟨hconf, _⟩
      unfold symlinkConflictWorded symlinkGroupOf at hconf
      have : ctxs.filter (fun c => c.resolved_symlink_name = "") = [] := by
        apply List.filter_eq_nil_iff.mpr
        intro c hc
        simp only [decide_eq_true_eq]
        exact hni c hc
      rw [this] at hconf
      simp at hconf
  · have hglook : glookup ((ctxs.map fun c => (c.entry_label, c.resolved_symlink_name)).foldl
        (fun reg p => if p.2 = "" then reg else addToGroup reg p.2 p.1) []) sn
        = (symlinkGroupOf ctxs sn).map fun c => c.entry_label := by
      rw [glookup_foldl_registry _ [] sn hsn, symPairs_filter ctxs sn]
      simp [glookup]
    constructor
    · intro ⟨hmem, hlen⟩
      have hg := (mem_registry_iff _ hwf sn labels).mp hmem
      rw [hglook] at hg
      refine ⟨?_, hg.1.symm⟩
      unfold symlinkConflictWorded
      have : labels.length > 1 := by simpa using hlen
      rw [← hg.1] at this
      simpa using this
    · intro ⟨hconf, hlab⟩
      unfold symlinkConflictWorded at hconf
      constructor
      · apply (mem_registry_iff _ hwf sn labels).mpr
        refine ⟨by rw [hglook, hlab], ?_⟩
        intro e
        rw [e] at hlab
        have := congrArg List.length hlab
        simp at this
        rw [← this] at hconf
        simp at hconf
      · simp only [decide_eq_true_eq, gt_iff_lt]
        rw [hlab]
        simpa using hconf

/-- C7: with all resolved symlink names non-empty, the batch conflict
check reports nothing exactly when there is no project-name conflict (a
group larger than one that does not consist of identical install specs
with at most one inside-cache member) and no symlink-name collision; and
when it raises, the aggregated error carries every conflicting
project_name and every conflicting symlink_name, each with the entry
labels of all its members — never only the first conflict. -/
theorem C7_conflicts_all_aggregated :
    ∀ ctxs : List LinkContext,
      (∀ c ∈ ctxs, c.resolved_symlink_name ≠ "") →
      (ensureUniqueLinkTargets ctxs = none ↔
        ((∀ pn, ¬projectConflictWorded ctxs pn) ∧
          (∀ sn, ¬symlinkConflictWorded ctxs sn))) ∧
      (∀ pd sd, ensureUniqueLinkTargets ctxs = some (pd, sd) →
        (∀ pn labels, ((pn, labels) ∈ pd ↔
          (projectConflictWorded ctxs pn ∧
            labels = (projectGroupOf ctxs pn).map fun c => c.entry_label))) ∧
        (∀ sn labels, ((sn, labels) ∈ sd ↔
          (symlinkConflictWorded ctxs sn ∧
            labels = (symlinkGroupOf ctxs sn).map fun c => c.entry_label)))) := by
  intro ctxs hni
  have hpd := mem_findProjectDuplicates_iff ctxs
  have hsd := fun sn labels => mem_collectDuplicates_iff ctxs hni sn labels
  have hpdnil : (findProjectDuplicates (groupContextsByProject ctxs) = []) ↔
      (∀ pn, ¬projectConflictWorded ctxs pn) := by
    constructor
    · intro h pn hconf
      have hm := (hpd pn ((projectGroupOf ctxs pn).map fun c => c.entry_label)).mpr
        ⟨hconf, rfl⟩
      rw [h] at hm
      exact absurd hm (List.not_mem_nil _)
    · intro h
      cases hl : findProjectDuplicates (groupContextsByProject ctxs) with
      | nil => rfl
      | cons e rest =>
        exfalso
        obtain ⟨pn, labels⟩ := e
        have hm : (pn, labels) ∈ findProjectDuplicates (groupContextsByProject ctxs) := by
          rw [hl]
          exact List.mem_cons_self _ _
        exact absurd ((hpd pn labels).mp hm).1 (h pn)
  have hsdnil : (collectDuplicates
        (ctxs.map fun c => (c.entry_label, c.resolved_symlink_name)) = []) ↔
      (∀ sn, ¬symlinkConflictWorded ctxs sn) := by
    constructor
    · intro h sn hconf
      have hm := (hsd sn ((symlinkGroupOf ctxs sn).map fun c => c.entry_label)).mpr
        ⟨hconf, rfl⟩
      rw [h] at hm
      exact absurd hm (List.not_mem_nil _)
    · intro h
      cases hl : collectDuplicates
          (ctxs.map fun c => (c.entry_label, c.resolved_symlink_name)) with
      | nil => rfl
      | cons e rest =>
        exfalso
        obtain ⟨sn, labels⟩ := e
        have hm : (sn, labels) ∈ collectDuplicates
            (ctxs.map fun c => (c.entry_label, c.resolved_symlink_name)) := by
          rw [hl]
          exact List.mem_cons_self _ _
        exact absurd ((hsd sn labels).mp hm).1 (h sn)
  constructor
  · constructor
    · intro h
      unfold ensureUniqueLinkTargets at h
      by_cases hc : (decide (findProjectDuplicates (groupContextsByProject ctxs) = [])
          && decide (collectDuplicates
            (ctxs.map fun c => (c.entry_label, c.resolved_symlink_name)) = [])) = true
      · simp only [Bool.and_eq_true, decide_eq_true_eq] at hc
        exact ⟨hpdnil.mp hc.1, hsdnil.mp hc.2⟩
      · rw [if_neg hc] at h
        exact Option.noConfusion h
    · intro ⟨ha, hb⟩
      unfold ensureUniqueLinkTargets
      rw [if_pos (by simp [hpdnil.mpr ha, hsdnil.mpr hb])]
  · intro pd sd h
    unfold ensureUniqueLinkTargets at h
    by_cases hc : (decide (findProjectDuplicates (groupContextsByProject ctxs) = [])
        && decide (collectDuplicates
          (ctxs.map fun c => (c.entry_label, c.resolved_symlink_name)) = [])) = true
    · rw [if_pos hc] at h
      exact Option.noConfusion h
    · rw [if_neg hc] at h
      injection h with hh
      rw [Prod.mk.injEq] at hh
      obtain ⟨h1, h2⟩ := hh
      rw [← h1, ← h2] at *
      exact ⟨fun pn labels => by rw [h1]; exact hpd pn labels,
        fun sn labels => by rw [h2]; exact hsd sn labels⟩

theorem C7_conflicts_all_aggregated_witness :
    ((("shared", ["e1", "e2"])
        ∈ [(("shared" : String), ["e1", "e2"])] ↔
      (projectConflictWorded
          [⟨⟨"shared", "specA"⟩, false, ".a", "e1"⟩,
            ⟨⟨"shared", "specB"⟩, false, ".b", "e2"⟩,
            ⟨⟨"p3", "s3"⟩, false, ".shared", "e3"⟩,
            ⟨⟨"p4", "s4"⟩, false, ".shared", "e4"⟩] "shared" ∧
        ["e1", "e2"] = (projectGroupOf
          [⟨⟨"shared", "specA"⟩, false, ".a", "e1"⟩,
            ⟨⟨"shared", "specB"⟩, false, ".b", "e2"⟩,
            ⟨⟨"p3", "s3"⟩, false, ".shared", "e3"⟩,
            ⟨⟨"p4", "s4"⟩, false, ".shared", "e4"⟩] "shared").map
          fun c => c.entry_label))) ∧
    (((".shared", ["e3", "e4"])
        ∈ [((".shared" : String), ["e3", "e4"])] ↔
      (symlinkConflictWorded
          [⟨⟨"shared", "specA"⟩, false, ".a", "e1"⟩,
            ⟨⟨"shared", "specB"⟩, false, ".b", "e2"⟩,
            ⟨⟨"p3", "s3"⟩, false, ".shared", "e3"⟩,
            ⟨⟨"p4", "s4"⟩, false, ".shared", "e4"⟩] ".shared" ∧
        ["e3", "e4"] = (symlinkGroupOf
          [⟨⟨"shared", "specA"⟩, false, ".a", "e1"⟩,
            ⟨⟨"shared", "specB"⟩, false, ".b", "e2"⟩,
            ⟨⟨"p3", "s3"⟩, false, ".shared", "e3"⟩,
            ⟨⟨"p4", "s4"⟩, false, ".shared", "e4"⟩] ".shared").map
          fun c => c.entry_label))) :=
  ⟨((C7_conflicts_all_aggregated
      [⟨⟨"shared", "specA"⟩, false, ".a", "e1"⟩,
        ⟨⟨"shared", "specB"⟩, false, ".b", "e2"⟩,
        ⟨⟨"p3", "s3"⟩, false, ".shared", "e3"⟩,
        ⟨⟨"p4", "s4"⟩, false, ".shared", "e4"⟩] (by decide)).2
      [("shared", ["e1", "e2"])] [(".shared", ["e3", "e4"])] (by decide)).1
      "shared" ["e1", "e2"],
    ((C7_conflicts_all_aggregated
      [⟨⟨"shared", "specA"⟩, false, ".a", "e1"⟩,
        ⟨⟨"shared", "specB"⟩, false, ".b", "e2"⟩,
        ⟨⟨"p3", "s3"⟩, false, ".shared", "e3"⟩,
        ⟨⟨"p4", "s4"⟩, false, ".shared", "e4"⟩] (by decide)).2
      [("shared", ["e1", "e2"])] [(".shared", ["e3", "e4"])] (by decide)).2
      ".shared" ["e3", "e4"]⟩

end Pkglink
